import Mathlib

/-!
Verification development for the four-color-theorem coloring engine.

The definitions below are a shallow embedding of the engine's JavaScript
source: the coloring algorithms (Greedy, Welsh-Powell, DSATUR and the
backtracking search of coloring.js), the coloring validator, the adjacency
matrix builder, the bounded undo/redo history manager, and the TheoremEngine
orchestrator.  JavaScript objects used as string-keyed maps are embedded as
insertion-ordered association lists, the `-1` "uncolored" sentinel of the
color arrays as `Option Nat`, thrown exceptions as `Except`, and wall-clock
timestamps (which have no behavioral role) are omitted.
-/

namespace FourColor

/-- Edge of an input graph: source and target node identifiers. -/
structure Edge where
  source : String
  target : String
deriving DecidableEq, Repr

/-- Coloring constraint (contracts/types.js): a node identifier with an
optional fixed color index (`colorIndex === undefined` is `none`). -/
structure Constraint where
  nodeId : String
  colorIndex : Option Nat
deriving DecidableEq, Repr

/-- AlgorithmOptions (contracts/types.js): algorithm name, `maxColors`, and
the constraint list (a missing list behaves like the empty list, since the
source only ever iterates over it). -/
structure AlgorithmOptions where
  algorithm : Option String := none
  maxColors : Option Nat := none
  constraints : List Constraint := []
deriving Repr

/-- models the JS `options.maxColors || 4` (JS `||` treats 0 as falsy). -/
def resolveMaxColors : Option Nat → Nat
  | none => 4
  | some 0 => 4
  | some m => m

/-- ColorAssignment (contracts/types.js): the `assignments` JS object is an
insertion-ordered association list with unique keys. -/
structure ColorAssignment where
  assignments : List (String × Nat)
  palette : List String
  chromatic : Nat
  valid : Bool
deriving DecidableEq, Repr

/-- lookup `obj[k]` in a JS-object association list. -/
def lookupA : List (String × Nat) → String → Option Nat
  | [], _ => none
  | (k', v) :: rest, k => if k' = k then some v else lookupA rest k

/-- models `obj[k] = v` on a JS object: update an existing key in place
(keeping its position) or append a new key at the end. -/
def setA : List (String × Nat) → String → Nat → List (String × Nat)
  | [], k, v => [(k, v)]
  | (k', v') :: rest, k, v =>
    if k' = k then (k, v) :: rest else (k', v') :: setA rest k v

/-- models `Object.values(obj)` (insertion order). -/
def valuesA (m : List (String × Nat)) : List Nat := m.map (·.2)

/-- matrix entry read `adjacency[i][j]`, out-of-range reads giving 0. -/
def at2 (m : List (List Nat)) (i j : Nat) : Nat :=
  (m.getD i []).getD j 0

/-- matrix entry write `matrix[i][j] = v`. -/
def set2 (m : List (List Nat)) (i j v : Nat) : List (List Nat) :=
  m.set i ((m.getD i []).set j v)

/-- Graph as consumed by the algorithms after `_preprocessGraph`: node ids in
order, the edge list, and a concrete adjacency matrix. -/
structure Graph where
  nodes : List String
  edges : List Edge
  adjacency : List (List Nat)
deriving Repr

/-- Raw graph input to `loadGraph`, whose adjacency matrix may be absent. -/
structure GraphData where
  nodes : List String
  edges : List Edge
  adjacency : Option (List (List Nat)) := none
deriving Repr

/-- models `new Map(graph.nodes.map((node, i) => [node.id, i])).get(id)`:
with duplicate ids the Map keeps the last index. -/
def mapIndex (nodes : List String) (id : String) : Option Nat :=
  ((List.range nodes.length).filter (fun i => decide (nodes.getD i "" = id))).getLast?

/-- TheoremEngine._buildAdjacencyMatrix: an n-by-n zero matrix over which each
edge with two known endpoints sets the two mirrored cells to 1; edges with an
unknown endpoint are skipped. -/
def buildAdjacencyMatrix (nodes : List String) (edges : List Edge) : List (List Nat) :=
  let n := nodes.length
  edges.foldl (fun m e =>
    match mapIndex nodes e.source, mapIndex nodes e.target with
    | some i, some j => set2 (set2 m i j 1) j i 1
    | _, _ => m) (List.replicate n (List.replicate n 0))

/-- TheoremEngine._preprocessGraph: build the adjacency matrix when absent. -/
def preprocessGraph (g : GraphData) : Graph :=
  { nodes := g.nodes, edges := g.edges,
    adjacency := g.adjacency.getD (buildAdjacencyMatrix g.nodes g.edges) }

/-- first index of a node id, models `nodes.findIndex(node => node.id === id)`
with -1 encoded as `none`. -/
def findIndexId (nodes : List String) (id : String) : Option Nat :=
  nodes.findIdx? (fun s => decide (s = id))

/-- constraint application shared by the three heuristic algorithms: each
constraint with a known node and a defined colorIndex writes that color. -/
def applyConstraints (nodes : List String) (constraints : List Constraint)
    (colors : List (Option Nat)) : List (Option Nat) :=
  constraints.foldl (fun cs con =>
    match findIndexId nodes con.nodeId, con.colorIndex with
    | some idx, some c => cs.set idx (some c)
    | _, _ => cs) colors

/-- colors used by already-colored neighbors of `vertex` (the contents of the
`usedColors` set in `_getAvailableColors`), scanning `adjacency.length` cells
and testing `adjacency[vertex][i] === 1`. -/
def usedNeighborColors (adjacency : List (List Nat)) (vertex : Nat)
    (colors : List (Option Nat)) : List Nat :=
  (List.range adjacency.length).filterMap (fun i =>
    if at2 adjacency vertex i = 1 then colors.getD i none else none)

/-- the `_getAvailableColors` result: colors `0..maxColors-1` not used by any
already-colored neighbor, in ascending order. -/
def availableColors (adjacency : List (List Nat)) (vertex : Nat)
    (colors : List (Option Nat)) (maxColors : Nat) : List Nat :=
  (List.range maxColors).filter
    (fun c => decide (c ∉ usedNeighborColors adjacency vertex colors))

/-- one step of the output-format conversion: `assignments[nodes[i].id] =
colors[i]` when position `i` is colored. -/
def assignStep (nodes : List String) (colors : List (Option Nat))
    (acc : List (String × Nat)) (i : Nat) : List (String × Nat) :=
  match colors.getD i none with
  | some c => setA acc (nodes.getD i "") c
  | none => acc

/-- output-format conversion: the colored positions written into the
assignments object in index order. -/
def assignmentsOf (nodes : List String) (colors : List (Option Nat)) :
    List (String × Nat) :=
  (List.range nodes.length).foldl (assignStep nodes colors) []

/-- the `maxColorUsed` accumulator: maximum color over colored positions,
starting from -1. -/
def maxColorUsed (colors : List (Option Nat)) : Int :=
  colors.foldl (fun m c => match c with | some v => max m (v : Int) | none => m) (-1)

/-- base palette shared by GreedyAlgorithm, DSATURAlgorithm and the engine's
`_getDefaultPalette`. -/
def basePalette : List String := ["#E63946", "#457B9D", "#F1C40F", "#27AE60"]

/-- GreedyAlgorithm._generatePalette: `baseColors.slice(0, Math.min(numColors, 4))`. -/
def greedyGeneratePalette (numColors : Nat) : List String :=
  basePalette.take (min numColors 4)

/-- WelshPowellAlgorithm's emergency palette. -/
def welshPowellPalette : List String := ["#DC143C", "#4169E1", "#FFD700", "#228B22"]

/-- WelshPowellAlgorithm._generatePalette: `emergencyColors.slice(0, Math.min(numColors, 4))`. -/
def welshPowellGeneratePalette (numColors : Nat) : List String :=
  welshPowellPalette.take (min numColors 4)

/-- an `hsl(hue, 70%, 50%)` color string; the JS hue is a floating-point
number, rendered here from an exact rational with the same value. -/
def hslColor (hue : ℚ) : String := "hsl(" ++ toString hue ++ ", 70%, 50%)"

/-- DSATURAlgorithm._generatePalette: truncate the base palette up to 4 colors
and extend it with `hsl((i * 360 / numColors) % 360, ...)` entries beyond 4;
for `i < numColors` the JS `% 360` is a no-op, since `i * 360 / numColors < 360`. -/
def dsaturGeneratePalette (numColors : Nat) : List String :=
  if numColors ≤ 4 then basePalette.take numColors
  else basePalette ++ (List.range (numColors - 4)).map (fun (k : Nat) =>
    hslColor (((k : ℚ) + 4) * (360 / (numColors : ℚ))))

/-- the shared coloring loop body of Greedy and Welsh-Powell over a list of
vertex indices: skip colored vertices, give an uncolored vertex the first
available color, and return `none` the first time no color is available. -/
def greedyGo (adjacency : List (List Nat)) (maxColors : Nat) :
    List Nat → List (Option Nat) → Option (List (Option Nat))
  | [], colors => some colors
  | i :: rest, colors =>
    match colors.getD i none with
    | some _ => greedyGo adjacency maxColors rest colors
    | none =>
      match (availableColors adjacency i colors maxColors).head? with
      | none => none
      | some c => greedyGo adjacency maxColors rest (colors.set i (some c))

/-- GreedyAlgorithm.compute. -/
def greedyCompute (g : Graph) (options : AlgorithmOptions) : ColorAssignment :=
  let n := g.nodes.length
  let maxColors := resolveMaxColors options.maxColors
  let colors0 := applyConstraints g.nodes options.constraints (List.replicate n none)
  match greedyGo g.adjacency maxColors (List.range n) colors0 with
  | none =>
    { assignments := [], palette := greedyGeneratePalette maxColors,
      chromatic := 0, valid := false }
  | some colors =>
    { assignments := assignmentsOf g.nodes colors,
      palette := greedyGeneratePalette (maxColorUsed colors + 1).toNat,
      chromatic := (maxColorUsed colors + 1).toNat,
      valid := true }

/-- row sum `adjacency[i].reduce((sum, val) => sum + val, 0)`. -/
def rowDegree (adjacency : List (List Nat)) (i : Nat) : Nat :=
  (adjacency.getD i []).foldl (· + ·) 0

/-- stable insertion (descending by the second component) used to model the
stable JS `sort((a, b) => b.degree - a.degree)`. -/
def insertByDegreeDesc (x : Nat × Nat) : List (Nat × Nat) → List (Nat × Nat)
  | [] => [x]
  | y :: ys => if x.2 < y.2 then y :: insertByDegreeDesc x ys else x :: y :: ys

/-- stable sort, descending by the second component; ties keep input order,
as guaranteed for `Array.prototype.sort`. -/
def sortByDegreeDesc (l : List (Nat × Nat)) : List (Nat × Nat) :=
  l.foldr insertByDegreeDesc []

/-- WelshPowellAlgorithm.compute (its `metadata` field, unused by the engine,
is not modelled). -/
def welshPowellCompute (g : Graph) (options : AlgorithmOptions) : ColorAssignment :=
  let n := g.nodes.length
  let maxColors := resolveMaxColors options.maxColors
  let degrees := (List.range n).map (fun i => (i, rowDegree g.adjacency i))
  let order := (sortByDegreeDesc degrees).map (·.1)
  let colors0 := applyConstraints g.nodes options.constraints (List.replicate n none)
  match greedyGo g.adjacency maxColors order colors0 with
  | none =>
    { assignments := [], palette := welshPowellGeneratePalette maxColors,
      chromatic := 0, valid := false }
  | some colors =>
    { assignments := assignmentsOf g.nodes colors,
      palette := welshPowellGeneratePalette (maxColorUsed colors + 1).toNat,
      chromatic := (maxColorUsed colors + 1).toNat,
      valid := true }

/-- DSATURAlgorithm._getSaturationDegree: number of distinct colors among the
already-colored neighbors. -/
def saturationDegree (adjacency : List (List Nat)) (vertex : Nat)
    (colors : List (Option Nat)) : Nat :=
  (usedNeighborColors adjacency vertex colors).dedup.length

/-- one iteration of the DSATUR vertex-selection loop, carrying the
`(maxSat, maxDeg, chosenVertex)` accumulator. -/
def chooseStep (adjacency : List (List Nat)) (degree : List Nat)
    (colors : List (Option Nat)) (acc : Int × Int × Int) (i : Nat) : Int × Int × Int :=
  if colors.getD i none = none then
    if (saturationDegree adjacency i colors : Int) > acc.1 ∨
       ((saturationDegree adjacency i colors : Int) = acc.1 ∧
        (degree.getD i 0 : Int) > acc.2.1) then
      ((saturationDegree adjacency i colors : Int), (degree.getD i 0 : Int), (i : Int))
    else acc
  else acc

/-- the DSATUR vertex-selection loop: scan `i = 0..n-1`, keeping the uncolored
vertex with maximal saturation, ties broken by larger degree, earlier index
winning remaining ties; -1 when every vertex is colored. -/
def chooseVertex (adjacency : List (List Nat)) (degree : List Nat)
    (colors : List (Option Nat)) (n : Nat) : Int :=
  ((List.range n).foldl (chooseStep adjacency degree colors) (-1, -1, -1)).2.2

/-- the DSATUR `while (colored < n)` loop.  `colored` increases by exactly one
per completed iteration and is otherwise unused, so the loop is embedded with
fuel `n - colored`; `chosen < 0` models the `chosenVertex === -1` break, and
`none` models the early `valid: false` return. -/
def dsaturLoop (adjacency : List (List Nat)) (degree : List Nat)
    (maxColors n : Nat) : Nat → List (Option Nat) → Option (List (Option Nat))
  | 0, colors => some colors
  | fuel + 1, colors =>
    let chosen := chooseVertex adjacency degree colors n
    if chosen < 0 then some colors
    else
      match (availableColors adjacency chosen.toNat colors maxColors).head? with
      | none => none
      | some c =>
        dsaturLoop adjacency degree maxColors n fuel (colors.set chosen.toNat (some c))

/-- DSATURAlgorithm.compute, including the initialization of the `colored`
counter from the count of constraints with a defined colorIndex (whether or
not the constraint's node exists in the graph). -/
def dsaturCompute (g : Graph) (options : AlgorithmOptions) : ColorAssignment :=
  let n := g.nodes.length
  let maxColors := resolveMaxColors options.maxColors
  let constraints := options.constraints
  let colors0 := applyConstraints g.nodes constraints (List.replicate n none)
  let degree := (List.range n).map (fun i => rowDegree g.adjacency i)
  let colored := (constraints.filter (fun c => decide (c.colorIndex ≠ none))).length
  match dsaturLoop g.adjacency degree maxColors n (n - colored) colors0 with
  | none =>
    { assignments := [], palette := dsaturGeneratePalette maxColors,
      chromatic := 0, valid := false }
  | some colors =>
    { assignments := assignmentsOf g.nodes colors,
      palette := dsaturGeneratePalette (maxColorUsed colors + 1).toNat,
      chromatic := (maxColorUsed colors + 1).toNat,
      valid := true }

/-- TheoremEngine.validateColoring over a graph and an assignments object:
scan unordered pairs `i < j`; an edge whose two endpoints are both assigned
the same color makes the result false. -/
def validateColoring (g : Graph) (assignments : List (String × Nat)) : Bool :=
  (List.range g.nodes.length).all (fun i =>
    (List.range g.nodes.length).all (fun j =>
      if i < j ∧ at2 g.adjacency i j = 1 then
        match lookupA assignments (g.nodes.getD i ""),
              lookupA assignments (g.nodes.getD j "") with
        | some c1, some c2 => decide (c1 ≠ c2)
        | _, _ => true
      else true))

/-- neighbor truthiness test of coloring.js (`adjacency[v][u] ? ...`). -/
def btUsedColors (adjacency : List (List Nat)) (v : Nat)
    (colors : List (Option Nat)) : List Nat :=
  (List.range adjacency.length).filterMap (fun u =>
    if at2 adjacency v u ≠ 0 then colors.getD u none else none)

/-- coloring.js `isSafe(v, c)`: no neighbor of `v` already has color `c`. -/
def btIsSafe (adjacency : List (List Nat)) (colors : List (Option Nat))
    (v c : Nat) : Bool :=
  (List.range adjacency.length).all (fun u =>
    if at2 adjacency v u ≠ 0 then decide (colors.getD u none ≠ some c) else true)

/-- coloring.js `degreeOf`: count of truthy cells in row `v`. -/
def btDegreeOf (adjacency : List (List Nat)) (v : Nat) : Nat :=
  ((List.range adjacency.length).filter (fun u => decide (at2 adjacency v u ≠ 0))).length

/-- one step of coloring.js `greedyPrefill`: give `v` the first color `< k`
not used by a neighbor, or leave it uncolored when none exists. -/
def btPrefillStep (adjacency : List (List Nat)) (k : Nat)
    (colors : List (Option Nat)) (v : Nat) : List (Option Nat) :=
  colors.set v
    (((List.range k).filter (fun c => decide (c ∉ btUsedColors adjacency v colors))).head?)

/-- coloring.js `backtrack(idx)` over the order suffix: skip colored vertices;
for an uncolored vertex try colors `0..k-1` in order, keeping the first branch
whose recursive search completes (failed branches restore the array, which is
immutability here). -/
def btGo (adjacency : List (List Nat)) (k : Nat) :
    List Nat → List (Option Nat) → Option (List (Option Nat))
  | [], colors => some colors
  | v :: rest, colors =>
    match colors.getD v none with
    | some _ => btGo adjacency k rest colors
    | none =>
      (List.range k).findSome? (fun c =>
        if btIsSafe adjacency colors v c then
          btGo adjacency k rest (colors.set v (some c))
        else none)

/-- coloring.js `colorGraphGreedyBacktrack`: order by descending degree,
greedy pre-fill, depth-first search from the first vertex the pre-fill left
unresolved, then replace any remaining unresolved vertex by color 0. -/
def colorGraphGreedyBacktrack (adjacency : List (List Nat)) (k : Nat) : List Nat :=
  let n := adjacency.length
  let order := (sortByDegreeDesc ((List.range n).map (fun v => (v, btDegreeOf adjacency v)))).map (·.1)
  let prefilled := order.foldl (btPrefillStep adjacency k) (List.replicate n (none : Option Nat))
  let colors2 :=
    match (List.range order.length).find?
        (fun i => decide (prefilled.getD (order.getD i 0) none = none)) with
    | none => prefilled
    | some i =>
      match btGo adjacency k (order.drop i) prefilled with
      | some res => res
      | none => prefilled
  (List.range n).map (fun i => (colors2.getD i none).getD 0)

/-- Modelled from the spec: `BacktrackingAlgorithm.compute`
(modules/algorithms/backtracking.js is not under src/).  Per spec section 4.2
the strategy orders by descending degree, does a greedy pre-fill, then a
depth-first search from the first unresolved node, and unresolved nodes
default to color 0; that is exactly `colorGraphGreedyBacktrack` of
src/coloring.js, which this wrapper reuses, packaging the colors in the
common ColorAssignment output format with validity checked against the
adjacency structure (the spec directs that validity of the fallback-filled
result be decided by the validator). -/
def backtrackingCompute (g : Graph) (options : AlgorithmOptions) : ColorAssignment :=
  let k := resolveMaxColors options.maxColors
  let colors := (colorGraphGreedyBacktrack g.adjacency k).map some
  let a := assignmentsOf g.nodes colors
  { assignments := a,
    palette := dsaturGeneratePalette (maxColorUsed colors + 1).toNat,
    chromatic := (maxColorUsed colors + 1).toNat,
    valid := validateColoring g a }

/-- StateSnapshot (contracts/types.js): a ColorAssignment plus the action
label; the wall-clock timestamp has no behavioral role and is omitted. -/
structure StateSnapshot where
  coloring : ColorAssignment
  action : String
deriving DecidableEq, Repr

/-- HistoryManager (src/history.js): bounded stack with a cursor, cursor -1
when empty.  `structuredClone` is the identity on immutable values. -/
structure HistoryManager where
  maxSteps : Nat
  stack : List StateSnapshot
  index : Int
deriving Repr

/-- models `new HistoryManager(maxSteps)`. -/
def HistoryManager.make (maxSteps : Nat) : HistoryManager :=
  { maxSteps := maxSteps, stack := [], index := -1 }

/-- HistoryManager.push: truncate after the cursor, append, drop the oldest
entry when over capacity, and point the cursor at the new tail. -/
def HistoryManager.push (hm : HistoryManager) (s : StateSnapshot) : HistoryManager :=
  let st := hm.stack.take (hm.index + 1).toNat ++ [s]
  let st := if st.length > hm.maxSteps then st.tail else st
  { hm with stack := st, index := (st.length : Int) - 1 }

/-- HistoryManager.undo: no-op signal when the cursor is at 0 or below,
otherwise step the cursor back and return the snapshot now pointed at. -/
def HistoryManager.stepBack (hm : HistoryManager) : HistoryManager × Option StateSnapshot :=
  if hm.index ≤ 0 then (hm, none)
  else
    let hm' := { hm with index := hm.index - 1 }
    (hm', hm'.stack.get? hm'.index.toNat)

/-- HistoryManager.redo: no-op signal when the cursor is at the tail,
otherwise step the cursor forward and return the snapshot pointed at. -/
def HistoryManager.stepForward (hm : HistoryManager) : HistoryManager × Option StateSnapshot :=
  if hm.index ≥ (hm.stack.length : Int) - 1 then (hm, none)
  else
    let hm' := { hm with index := hm.index + 1 }
    (hm', hm'.stack.get? hm'.index.toNat)

/-- Modelled from the spec: `StateManager.clear`
(modules/state-manager.js is not under src/; src/history.js, the claim
sources' stand-in for it, has no clear).  The spec says loadGraph and reset
"clear history": the stack is emptied and the cursor returns to its initial
position. -/
def HistoryManager.clear (hm : HistoryManager) : HistoryManager :=
  { hm with stack := [], index := -1 }

/-- TheoremEngine state: undo capacity, history, current graph and coloring. -/
structure TheoremEngine where
  maxUndoSteps : Nat
  stateManager : HistoryManager
  currentGraph : Option Graph
  currentColoring : Option ColorAssignment
deriving Repr

/-- models `new TheoremEngine(options)` (`options.maxUndoSteps || 20`). -/
def TheoremEngine.make (maxUndoSteps : Option Nat) : TheoremEngine :=
  let m := match maxUndoSteps with | none => 20 | some 0 => 20 | some k => k
  { maxUndoSteps := m, stateManager := HistoryManager.make m,
    currentGraph := none, currentColoring := none }

/-- the empty/invalid coloring installed by loadGraph. -/
def emptyColoring : ColorAssignment :=
  { assignments := [], palette := [], chromatic := 0, valid := false }

/-- TheoremEngine.loadGraph: preprocess, clear history, reset the coloring. -/
def TheoremEngine.loadGraph (e : TheoremEngine) (g : GraphData) : TheoremEngine :=
  { e with currentGraph := some (preprocessGraph g),
           stateManager := e.stateManager.clear,
           currentColoring := some emptyColoring }

/-- TheoremEngine._selectAlgorithm's dispatch tag. -/
inductive AlgoKind
  | greedy
  | dsatur
  | welshPowell
  | backtracking
deriving DecidableEq, Repr

/-- TheoremEngine._selectAlgorithm: unrecognized or absent names fall back to
greedy. -/
def selectAlgorithm : Option String → AlgoKind
  | some "dsatur" => .dsatur
  | some "welsh-powell" => .welshPowell
  | some "backtracking" => .backtracking
  | _ => .greedy

/-- dispatch of `algorithm.compute(graph, options)`. -/
def runAlgorithm : AlgoKind → Graph → AlgorithmOptions → ColorAssignment
  | .greedy, g, o => greedyCompute g o
  | .dsatur, g, o => dsaturCompute g o
  | .welshPowell, g, o => welshPowellCompute g o
  | .backtracking, g, o => backtrackingCompute g o

/-- models the JS `options.algorithm || 'default'` label fragment. -/
def orDefaultStr : Option String → String → String
  | none, d => d
  | some "", d => d
  | some s, _ => s

/-- TheoremEngine.computeColoring: `throw new Error('No graph loaded')` when
no graph is present (before any state is touched), otherwise run the selected
algorithm, install the result and push a snapshot. -/
def TheoremEngine.computeColoring (e : TheoremEngine) (options : AlgorithmOptions) :
    Except String (TheoremEngine × ColorAssignment) :=
  match e.currentGraph with
  | none => .error "No graph loaded"
  | some g =>
    let coloring := runAlgorithm (selectAlgorithm options.algorithm) g options
    .ok ({ e with currentColoring := some coloring,
                  stateManager := e.stateManager.push
                    { coloring := coloring,
                      action := "Auto-colored using " ++ orDefaultStr options.algorithm "default"
                                ++ " algorithm" } },
         coloring)

/-- the default palette installed by assignColor on a null coloring
(`_getDefaultPalette`). -/
def defaultPalette : List String := basePalette

/-- TheoremEngine.assignColor: write the color into the assignments object,
recompute `chromatic` as the number of distinct values, revalidate against the
current graph (false when no graph is loaded), and push a snapshot. -/
def TheoremEngine.assignColor (e : TheoremEngine) (nodeId : String)
    (colorIndex : Nat) : TheoremEngine :=
  let cur := e.currentColoring.getD
    { assignments := [], palette := defaultPalette, chromatic := 0, valid := false }
  let assignments := setA cur.assignments nodeId colorIndex
  let coloring : ColorAssignment :=
    { cur with
      assignments := assignments,
      chromatic := (valuesA assignments).dedup.length,
      valid := match e.currentGraph with
               | some g => validateColoring g assignments
               | none => false }
  { e with currentColoring := some coloring,
           stateManager := e.stateManager.push
             { coloring := coloring,
               action := "Colored node " ++ nodeId ++ " with color " ++ toString colorIndex } }

/-- TheoremEngine.undo: on a returned snapshot install its coloring, otherwise
leave the coloring untouched and return the null signal. -/
def TheoremEngine.undo (e : TheoremEngine) : TheoremEngine × Option ColorAssignment :=
  match e.stateManager.stepBack with
  | (sm, some snap) =>
    ({ e with stateManager := sm, currentColoring := some snap.coloring }, some snap.coloring)
  | (sm, none) => ({ e with stateManager := sm }, none)

/-- TheoremEngine.redo, symmetric to undo. -/
def TheoremEngine.redo (e : TheoremEngine) : TheoremEngine × Option ColorAssignment :=
  match e.stateManager.stepForward with
  | (sm, some snap) =>
    ({ e with stateManager := sm, currentColoring := some snap.coloring }, some snap.coloring)
  | (sm, none) => ({ e with stateManager := sm }, none)

/-- TheoremEngine.reset: install the uncolored state, clear history and push
the reset baseline snapshot. -/
def TheoremEngine.reset (e : TheoremEngine) : TheoremEngine :=
  let coloring : ColorAssignment :=
    { assignments := [], palette := defaultPalette, chromatic := 0, valid := false }
  { e with currentColoring := some coloring,
           stateManager := e.stateManager.clear.push
             { coloring := coloring, action := "Reset to uncolored state" } }

/-- engine states reachable from a freshly constructed TheoremEngine by the
public operations. -/
inductive Reachable : TheoremEngine → Prop
  | init (opts : Option Nat) : Reachable (TheoremEngine.make opts)
  | load {e : TheoremEngine} (g : GraphData) : Reachable e → Reachable (e.loadGraph g)
  | compute {e e' : TheoremEngine} {c : ColorAssignment} {o : AlgorithmOptions} :
      Reachable e → e.computeColoring o = .ok (e', c) → Reachable e'
  | assign {e : TheoremEngine} (nodeId : String) (colorIndex : Nat) :
      Reachable e → Reachable (e.assignColor nodeId colorIndex)
  | undo {e : TheoremEngine} : Reachable e → Reachable e.undo.1
  | redo {e : TheoremEngine} : Reachable e → Reachable e.redo.1
  | reset {e : TheoremEngine} : Reachable e → Reachable e.reset

/-! Concrete graphs used by witnesses and counterexamples. -/

/-- triangle graph: three mutually adjacent nodes. -/
def triangleGraph : Graph :=
  { nodes := ["A", "B", "C"], edges := [],
    adjacency := [[0, 1, 1], [1, 0, 1], [1, 1, 0]] }

/-- single node with no edges. -/
def oneNodeGraph : Graph := { nodes := ["a"], edges := [], adjacency := [[0]] }

/-- complete graph on five nodes. -/
def k5Graph : Graph :=
  { nodes := ["a", "b", "c", "d", "e"], edges := [],
    adjacency := [[0, 1, 1, 1, 1], [1, 0, 1, 1, 1], [1, 1, 0, 1, 1],
                  [1, 1, 1, 0, 1], [1, 1, 1, 1, 0]] }

/-- two isolated nodes. -/
def twoIsolatedGraph : Graph :=
  { nodes := ["a", "b"], edges := [], adjacency := [[0, 0], [0, 0]] }

/-! Palette length lemmas. -/

lemma greedyGeneratePalette_length (n : Nat) :
    (greedyGeneratePalette n).length = min n 4 := by
  simp [greedyGeneratePalette, basePalette]

lemma welshPowellGeneratePalette_length (n : Nat) :
    (welshPowellGeneratePalette n).length = min n 4 := by
  simp [welshPowellGeneratePalette, welshPowellPalette]

lemma dsaturGeneratePalette_length (n : Nat) :
    (dsaturGeneratePalette n).length = n := by
  by_cases h : n ≤ 4
  · simp [dsaturGeneratePalette, h, basePalette]
  · have hm : ∀ (f : Nat → String) (m : Nat), ((List.range m).map f).length = m := by
      intro f m
      rw [List.length_map, List.length_range]
    rw [dsaturGeneratePalette, if_neg h, List.length_append, hm]
    simp [basePalette]
    omega

/-- C10: with a constraint whose defined colorIndex names a node absent from
the graph, DSATUR's `colored` counter starts at 1 although nothing was
applied, so the loop stops one vertex early: on two isolated nodes the result
maps node "a" but omits node "b" while reporting `valid: true`. -/
theorem dsatur_phantom_constraint_skips_node :
    (dsaturCompute twoIsolatedGraph
        { constraints := [⟨"z", some 0⟩] }).valid = true ∧
    (dsaturCompute twoIsolatedGraph
        { constraints := [⟨"z", some 0⟩] }).assignments = [("a", 0)] ∧
    lookupA (dsaturCompute twoIsolatedGraph
        { constraints := [⟨"z", some 0⟩] }).assignments "b" = none ∧
    "b" ∈ twoIsolatedGraph.nodes := by
  refine ⟨by decide, by decide, by decide, by decide⟩

/-- C8: computeColoring fails with the "No graph loaded" signal exactly when
no graph is present (the check precedes every state update, so the engine is
untouched), and with a graph loaded it always returns a result. -/
theorem computeColoring_no_graph_signal (e : TheoremEngine) (o : AlgorithmOptions) :
    (e.currentGraph = none → e.computeColoring o = .error "No graph loaded") ∧
    (∀ g, e.currentGraph = some g →
      ∃ e' c, e.computeColoring o = .ok (e', c)) := by
  constructor
  · intro h
    simp only [TheoremEngine.computeColoring]
    rw [h]
  · intro g h
    simp only [TheoremEngine.computeColoring]
    rw [h]
    exact ⟨_, _, rfl⟩

/-- witness for computeColoring_no_graph_signal: a fresh engine has no graph
and fails; after loading a one-node graph the computation succeeds. -/
theorem computeColoring_no_graph_signal_witness :
    (TheoremEngine.make none).computeColoring {} = .error "No graph loaded" ∧
    ∃ e' c, ((TheoremEngine.make none).loadGraph
        { nodes := ["A"], edges := [] }).computeColoring {} = .ok (e', c) := by
  constructor
  · exact (computeColoring_no_graph_signal (TheoremEngine.make none) {}).1 rfl
  · exact (computeColoring_no_graph_signal
      ((TheoremEngine.make none).loadGraph { nodes := ["A"], edges := [] }) {}).2
      (preprocessGraph { nodes := ["A"], edges := [] }) rfl

/-- C3 counterexample: on the complete graph K5 with `maxColors = 5`, Greedy
succeeds using five colors (`maxColorUsed + 1 = 5`) yet returns a palette of
length 4, so the palette is not sized to `maxColorUsed + 1`. -/
theorem greedy_palette_truncation_cex :
    (greedyCompute k5Graph { maxColors := some 5 }).valid = true ∧
    (greedyCompute k5Graph { maxColors := some 5 }).chromatic = 5 ∧
    (greedyCompute k5Graph { maxColors := some 5 }).palette.length = 4 := by
  refine ⟨by decide, by decide, by decide⟩

/-- C3 amended: on success, Greedy and Welsh-Powell size the palette to
`min (maxColorUsed + 1) 4` (the 4-entry base palette is truncated and never
extended), while DSATUR sizes it to exactly `maxColorUsed + 1`, extending
beyond 4 with evenly spaced hsl hues (the `chromatic` field equals
`maxColorUsed + 1` in each success case). -/
theorem palette_sizing (g : Graph) (o : AlgorithmOptions) :
    ((greedyCompute g o).valid = true →
      (greedyCompute g o).palette.length = min (greedyCompute g o).chromatic 4) ∧
    ((welshPowellCompute g o).valid = true →
      (welshPowellCompute g o).palette.length
        = min (welshPowellCompute g o).chromatic 4) ∧
    ((dsaturCompute g o).valid = true →
      (dsaturCompute g o).palette.length = (dsaturCompute g o).chromatic) ∧
    ((dsaturCompute g o).valid = true → ¬ (dsaturCompute g o).chromatic ≤ 4 →
      (dsaturCompute g o).palette
        = basePalette ++ (List.range ((dsaturCompute g o).chromatic - 4)).map
            (fun (k : Nat) => hslColor (((k : ℚ) + 4)
              * (360 / ((dsaturCompute g o).chromatic : ℚ))))) := by
  refine ⟨?_, ?_, ?_, ?_⟩
  · intro hv
    cases h : greedyGo g.adjacency (resolveMaxColors o.maxColors)
        (List.range g.nodes.length)
        (applyConstraints g.nodes o.constraints (List.replicate g.nodes.length none)) with
    | none =>
      have hf : (greedyCompute g o).valid = false := by
        simp only [greedyCompute]
        rw [h]
      rw [hf] at hv
      exact Bool.noConfusion hv
    | some colors =>
      have hp : (greedyCompute g o).palette
          = greedyGeneratePalette (maxColorUsed colors + 1).toNat := by
        simp only [greedyCompute]
        rw [h]
      have hc : (greedyCompute g o).chromatic = (maxColorUsed colors + 1).toNat := by
        simp only [greedyCompute]
        rw [h]
      rw [hp, hc, greedyGeneratePalette_length]
  · intro hv
    cases h : greedyGo g.adjacency (resolveMaxColors o.maxColors)
        ((sortByDegreeDesc ((List.range g.nodes.length).map
          (fun i => (i, rowDegree g.adjacency i)))).map (·.1))
        (applyConstraints g.nodes o.constraints (List.replicate g.nodes.length none)) with
    | none =>
      have hf : (welshPowellCompute g o).valid = false := by
        simp only [welshPowellCompute]
        rw [h]
      rw [hf] at hv
      exact Bool.noConfusion hv
    | some colors =>
      have hp : (welshPowellCompute g o).palette
          = welshPowellGeneratePalette (maxColorUsed colors + 1).toNat := by
        simp only [welshPowellCompute]
        rw [h]
      have hc : (welshPowellCompute g o).chromatic = (maxColorUsed colors + 1).toNat := by
        simp only [welshPowellCompute]
        rw [h]
      rw [hp, hc, welshPowellGeneratePalette_length]
  · intro hv
    cases h : dsaturLoop g.adjacency
        ((List.range g.nodes.length).map (fun i => rowDegree g.adjacency i))
        (resolveMaxColors o.maxColors) g.nodes.length
        (g.nodes.length -
          (o.constraints.filter (fun c => decide (c.colorIndex ≠ none))).length)
        (applyConstraints g.nodes o.constraints (List.replicate g.nodes.length none)) with
    | none =>
      have hf : (dsaturCompute g o).valid = false := by
        simp only [dsaturCompute]
        rw [h]
      rw [hf] at hv
      exact Bool.noConfusion hv
    | some colors =>
      have hp : (dsaturCompute g o).palette
          = dsaturGeneratePalette (maxColorUsed colors + 1).toNat := by
        simp only [dsaturCompute]
        rw [h]
      have hc : (dsaturCompute g o).chromatic = (maxColorUsed colors + 1).toNat := by
        simp only [dsaturCompute]
        rw [h]
      rw [hp, hc, dsaturGeneratePalette_length]
  · intro hv hgt
    cases h : dsaturLoop g.adjacency
        ((List.range g.nodes.length).map (fun i => rowDegree g.adjacency i))
        (resolveMaxColors o.maxColors) g.nodes.length
        (g.nodes.length -
          (o.constraints.filter (fun c => decide (c.colorIndex ≠ none))).length)
        (applyConstraints g.nodes o.constraints (List.replicate g.nodes.length none)) with
    | none =>
      have hf : (dsaturCompute g o).valid = false := by
        simp only [dsaturCompute]
        rw [h]
      rw [hf] at hv
      exact Bool.noConfusion hv
    | some colors =>
      have hp : (dsaturCompute g o).palette
          = dsaturGeneratePalette (maxColorUsed colors + 1).toNat := by
        simp only [dsaturCompute]
        rw [h]
      have hc : (dsaturCompute g o).chromatic = (maxColorUsed colors + 1).toNat := by
        simp only [dsaturCompute]
        rw [h]
      rw [hp, hc]
      rw [dsaturGeneratePalette, if_neg (hc ▸ hgt)]

/-- witness for palette_sizing: on the triangle, Greedy succeeds and its
3-color palette length is `min 3 4`; DSATUR on K5 with `maxColors = 5`
succeeds with a 5-entry palette. -/
theorem palette_sizing_witness :
    (greedyCompute triangleGraph {}).valid = true ∧
    (greedyCompute triangleGraph {}).palette.length
      = min (greedyCompute triangleGraph {}).chromatic 4 ∧
    (dsaturCompute k5Graph { maxColors := some 5 }).palette.length
      = (dsaturCompute k5Graph { maxColors := some 5 }).chromatic := by
  refine ⟨by decide, ?_, ?_⟩
  · exact (palette_sizing triangleGraph {}).1 (by decide)
  · exact (palette_sizing k5Graph { maxColors := some 5 }).2.2.1 (by decide)

/-- C2 counterexample: a constraint pinning the single node of a one-node
graph to color 3 makes Greedy report `chromatic = 4` although only one
distinct color index is in use. -/
theorem chromatic_not_distinct_count_cex :
    (greedyCompute oneNodeGraph { constraints := [⟨"a", some 3⟩] }).chromatic = 4 ∧
    (valuesA (greedyCompute oneNodeGraph
        { constraints := [⟨"a", some 3⟩] }).assignments).dedup.length = 1 := by
  refine ⟨by decide, by decide⟩

/-- engine state used by the C7 counterexample: a freshly loaded graph, whose
history stack is empty. -/
def freshLoadedEngine : TheoremEngine :=
  (TheoremEngine.make none).loadGraph { nodes := ["A", "B"], edges := [⟨"A", "B"⟩] }

/-- C7 counterexample: immediately after loadGraph (reachable state, empty
history), assignColor pushes only the mutated snapshot, so the following undo
is a no-op and the engine keeps the new coloring instead of restoring the
prior empty one. -/
theorem assign_undo_not_roundtrip_cex :
    Reachable freshLoadedEngine ∧
    ((freshLoadedEngine.assignColor "A" 0).undo.1.currentColoring
      ≠ freshLoadedEngine.currentColoring) := by
  constructor
  · exact Reachable.load _ (Reachable.init none)
  · decide

/-- C9 counterexample: a self-loop edge on a known node sets the diagonal
entry of the built adjacency matrix to 1. -/
theorem buildAdjacency_selfloop_cex :
    at2 (buildAdjacencyMatrix ["a"] [⟨"a", "a"⟩]) 0 0 = 1 := by decide

/-! HistoryManager capacity behavior (C6). -/

lemma foldl_push_from_tail (c : Nat) (hc : 1 ≤ c) :
    ∀ (l s : List StateSnapshot), s.length ≤ c →
      l.foldl HistoryManager.push ⟨c, s, (s.length : Int) - 1⟩
        = ⟨c, (s ++ l).drop ((s ++ l).length - c),
             ((min (s.length + l.length) c : Nat) : Int) - 1⟩ := by
  intro l
  induction l with
  | nil =>
    intro s hs
    simp [Nat.sub_eq_zero_of_le hs, Nat.min_eq_left hs]
  | cons x xs ih =>
    intro s hs
    rw [List.foldl_cons]
    by_cases hlt : s.length + 1 ≤ c
    · have hpush : HistoryManager.push ⟨c, s, (s.length : Int) - 1⟩ x
          = ⟨c, s ++ [x], (((s ++ [x]).length : Int)) - 1⟩ := by
        simp only [HistoryManager.push]
        have h1 : ((s.length : Int) - 1 + 1).toNat = s.length := by omega
        rw [h1, List.take_length]
        have h2 : ¬ (c < s.length + 1) := by omega
        simp [h2]
      rw [hpush, ih (s ++ [x]) (by simp; omega)]
      have hlist : (s ++ [x]) ++ xs = s ++ x :: xs := by simp
      rw [hlist]
      have hlen : (s ++ [x]).length + xs.length = s.length + (x :: xs).length := by
        simp
        omega
      rw [hlen]
    · have hsc : s.length = c := by omega
      cases s with
      | nil => simp at hsc; omega
      | cons a s0 =>
        have hpush : HistoryManager.push ⟨c, a :: s0, ((a :: s0).length : Int) - 1⟩ x
            = ⟨c, s0 ++ [x], (((s0 ++ [x]).length : Int)) - 1⟩ := by
          simp only [HistoryManager.push]
          have h1 : (((a :: s0).length : Int) - 1 + 1).toNat = (a :: s0).length := by omega
          rw [h1, List.take_length]
          have h2 : c < s0.length + 1 + 1 := by
            simp at hsc
            omega
          simp [h2]
        rw [hpush, ih (s0 ++ [x]) (by simp at hsc ⊢; omega)]
        have hlist : (s0 ++ [x]) ++ xs = s0 ++ x :: xs := by simp
        rw [hlist]
        have hdrop : (s0 ++ x :: xs).drop ((s0 ++ x :: xs).length - c)
            = ((a :: s0) ++ x :: xs).drop (((a :: s0) ++ x :: xs).length - c) := by
          have hs0 : s0.length = c - 1 := by simp at hsc; omega
          have hL : ((a :: s0) ++ x :: xs).length - c = ((s0 ++ x :: xs).length - c) + 1 := by
            simp [hs0]
            omega
          rw [hL]
          rfl
        rw [hdrop]
        have hmin : min ((s0 ++ [x]).length + xs.length) c
            = min ((a :: s0).length + (x :: xs).length) c := by
          have hs0 : s0.length = c - 1 := by simp at hsc; omega
          simp [hs0]
          omega
        rw [hmin]

/-- C6: pushing `k > c` snapshots into a fresh HistoryManager of capacity
`c ≥ 1` retains exactly the last `c` snapshots in push order (the oldest
`k - c` are discarded) with the cursor at the last index. -/
theorem history_capacity_retains_last (c : Nat) (l : List StateSnapshot)
    (hc : 1 ≤ c) (hk : c < l.length) :
    (l.foldl HistoryManager.push (HistoryManager.make c)).stack
        = l.drop (l.length - c) ∧
    (l.foldl HistoryManager.push (HistoryManager.make c)).stack.length = c ∧
    (l.foldl HistoryManager.push (HistoryManager.make c)).index = (c : Int) - 1 := by
  have hmk : HistoryManager.make c
      = ⟨c, ([] : List StateSnapshot), ((([] : List StateSnapshot).length : Int)) - 1⟩ := by
    simp [HistoryManager.make]
  rw [hmk, foldl_push_from_tail c hc l [] (by simp)]
  refine ⟨by simp, ?_, ?_⟩
  · simp [List.length_drop]
    omega
  · simp
    omega

/-- snapshots used by the C6 witness. -/
def witnessSnaps : List StateSnapshot :=
  [⟨emptyColoring, "s1"⟩, ⟨emptyColoring, "s2"⟩, ⟨emptyColoring, "s3"⟩]

/-- witness for history_capacity_retains_last: three pushes into a capacity-2
manager keep the last two snapshots with the cursor at index 1. -/
theorem history_capacity_retains_last_witness :
    (witnessSnaps.foldl HistoryManager.push (HistoryManager.make 2)).stack
        = witnessSnaps.drop 1 ∧
    (witnessSnaps.foldl HistoryManager.push (HistoryManager.make 2)).index = 1 := by
  have h := history_capacity_retains_last 2 witnessSnaps (by decide) (by decide)
  exact ⟨h.1, by rw [h.2.2]; decide⟩

/-! Validator characterization (C1). -/

lemma pairOk_iff (a : List (String × Nat)) (x y : String) :
    (match lookupA a x, lookupA a y with
     | some c1, some c2 => decide (c1 ≠ c2)
     | _, _ => true) = true
    ↔ ¬ ∃ c, lookupA a x = some c ∧ lookupA a y = some c := by
  rcases hx : lookupA a x with _ | c1 <;> rcases hy : lookupA a y with _ | c2
  · simp
  · simp
  · simp
  · rw [show (match some c1, some c2 with
        | some c1, some c2 => decide (c1 ≠ c2)
        | _, _ => true) = decide (c1 ≠ c2) from rfl, decide_eq_true_iff]
    constructor
    · rintro h ⟨c, e1, e2⟩
      rw [Option.some.injEq] at e1 e2
      subst e1
      subst e2
      exact h rfl
    · intro h heq
      exact h ⟨c1, rfl, by rw [← heq]⟩

lemma validate_eq_true_iff (g : Graph) (a : List (String × Nat)) :
    validateColoring g a = true ↔
      ∀ i, i < g.nodes.length → ∀ j, j < g.nodes.length → i < j →
        at2 g.adjacency i j = 1 →
        ¬ ∃ c, lookupA a (g.nodes.getD i "") = some c
             ∧ lookupA a (g.nodes.getD j "") = some c := by
  simp only [validateColoring, List.all_eq_true, List.mem_range]
  constructor
  · intro h i hi j hj hij hadj
    have hb := h i hi j hj
    rw [if_pos ⟨hij, hadj⟩] at hb
    exact (pairOk_iff a _ _).1 hb
  · intro h i hi j hj
    by_cases hc : i < j ∧ at2 g.adjacency i j = 1
    · rw [if_pos hc]
      exact (pairOk_iff a _ _).2 (h i hi j hj hc.1 hc.2)
    · rw [if_neg hc]

/-- C1: over a symmetric adjacency matrix, the validator returns false exactly
when two distinct positions joined by an edge both appear in the assignments
mapping with the same color; a pair with an unassigned endpoint never causes
a false result. -/
theorem validator_false_iff_conflict (g : Graph) (a : List (String × Nat))
    (hsym : ∀ i j, at2 g.adjacency i j = at2 g.adjacency j i) :
    validateColoring g a = false ↔
      ∃ i j, i < g.nodes.length ∧ j < g.nodes.length ∧ i ≠ j ∧
        at2 g.adjacency i j = 1 ∧
        ∃ c, lookupA a (g.nodes.getD i "") = some c
           ∧ lookupA a (g.nodes.getD j "") = some c := by
  rw [Bool.eq_false_iff, Ne, validate_eq_true_iff g a]
  push_neg
  constructor
  · rintro ⟨i, hi, j, hj, hij, hadj, c, h1, h2⟩
    exact ⟨i, j, hi, hj, Nat.ne_of_lt hij, hadj, c, h1, h2⟩
  · rintro ⟨i, j, hi, hj, hne, hadj, c, h1, h2⟩
    rcases Nat.lt_or_ge i j with hlt | hge
    · exact ⟨i, hi, j, hj, hlt, hadj, c, h1, h2⟩
    · have hjl : j < i := Nat.lt_of_le_of_ne hge (Ne.symm hne)
      have hadj' : at2 g.adjacency j i = 1 := by rw [← hsym i j]; exact hadj
      exact ⟨j, hj, i, hi, hjl, hadj', c, h2, h1⟩

lemma at2_zero_left {m : List (List Nat)} {i : Nat} (h : m.length ≤ i) (j : Nat) :
    at2 m i j = 0 := by
  unfold at2
  rw [List.getD_eq_default _ _ h]
  simp

lemma at2_zero_right {m : List (List Nat)} {n j : Nat}
    (hrow : ∀ r ∈ m, r.length = n) (h : n ≤ j) (i : Nat) : at2 m i j = 0 := by
  unfold at2
  by_cases hi : i < m.length
  · have hmem : m.getD i [] ∈ m := by
      rw [List.getD_eq_getElem _ _ hi]
      exact List.getElem_mem _
    rw [List.getD_eq_default]
    rw [hrow _ hmem]
    exact h
  · rw [List.getD_eq_default _ _ (Nat.le_of_not_lt hi)]
    simp

/-- symmetry on the bounded square extends to symmetry of all `at2` reads,
since out-of-range reads are 0. -/
lemma at2_symm_of_bounded (m : List (List Nat)) (n : Nat)
    (hlen : m.length = n) (hrow : ∀ r ∈ m, r.length = n)
    (h : ∀ i, i < n → ∀ j, j < n → at2 m i j = at2 m j i) :
    ∀ i j, at2 m i j = at2 m j i := by
  intro i j
  by_cases hi : i < n
  · by_cases hj : j < n
    · exact h i hi j hj
    · rw [at2_zero_right hrow (Nat.le_of_not_lt hj) i,
        at2_zero_left (by omega) i]
  · by_cases hj : j < n
    · rw [at2_zero_left (by omega) j, at2_zero_right hrow (Nat.le_of_not_lt hi) j]
    · rw [at2_zero_left (by omega) j, at2_zero_left (by omega) i]

/-- witness for validator_false_iff_conflict: on the triangle, assigning color
0 to both A and B makes the validator fail, via the conflict at positions
(0, 1). -/
theorem validator_false_iff_conflict_witness :
    validateColoring triangleGraph [("A", 0), ("B", 0)] = false :=
  (validator_false_iff_conflict triangleGraph [("A", 0), ("B", 0)]
      (at2_symm_of_bounded _ 3 (by decide) (by decide) (by decide))).2
    ⟨0, 1, by decide, by decide, by decide, by decide, 0, by decide, by decide⟩

/-! Adjacency matrix construction (C9). -/

lemma length_set2 (m : List (List Nat)) (i j v : Nat) :
    (set2 m i j v).length = m.length := by
  simp [set2]

lemma at2_set2_self (m : List (List Nat)) {i j : Nat} (v : Nat)
    (hi : i < m.length) (hj : j < (m.getD i []).length) :
    at2 (set2 m i j v) i j = v := by
  have h1 : (set2 m i j v).getD i [] = (m.getD i []).set j v := by
    unfold set2
    rw [List.getD_eq_getElem?_getD (m.set i ((m.getD i []).set j v)) i [],
      List.getElem?_set_self hi, Option.getD_some]
  unfold at2
  rw [h1, List.getD_eq_getElem?_getD ((m.getD i []).set j v) j 0,
    List.getElem?_set_self hj, Option.getD_some]

lemma at2_set2_other (m : List (List Nat)) {i j a b : Nat} (v : Nat)
    (h : ¬(a = i ∧ b = j)) : at2 (set2 m i j v) a b = at2 m a b := by
  by_cases hai : a = i
  · subst hai
    have hbj : b ≠ j := fun hb => h ⟨rfl, hb⟩
    by_cases hal : a < m.length
    · have h1 : (set2 m a j v).getD a [] = (m.getD a []).set j v := by
        unfold set2
        rw [List.getD_eq_getElem?_getD (m.set a ((m.getD a []).set j v)) a [],
          List.getElem?_set_self hal, Option.getD_some]
      unfold at2
      rw [h1, List.getD_eq_getElem?_getD ((m.getD a []).set j v) b 0,
        List.getElem?_set_ne (Ne.symm hbj),
        ← List.getD_eq_getElem?_getD (m.getD a []) b 0]
    · have hle : m.length ≤ a := Nat.le_of_not_lt hal
      have h1 : (set2 m a j v).getD a [] = [] := by
        unfold set2
        exact List.getD_eq_default _ _ (by rw [List.length_set]; exact hle)
      have h2 : m.getD a [] = [] := List.getD_eq_default _ _ hle
      unfold at2
      rw [h1, h2]
  · have h1 : (set2 m i j v).getD a [] = m.getD a [] := by
      unfold set2
      rw [List.getD_eq_getElem?_getD (m.set i ((m.getD i []).set j v)) a [],
        List.getElem?_set_ne (fun he => hai he.symm),
        ← List.getD_eq_getElem?_getD m a []]
    unfold at2
    rw [h1]

lemma at2_replicate_zero (n a b : Nat) :
    at2 (List.replicate n (List.replicate n 0)) a b = 0 := by
  unfold at2
  by_cases ha : a < n
  · have h1 : (List.replicate n (List.replicate n 0)).getD a [] = List.replicate n 0 := by
      rw [List.getD_eq_getElem _ _ (by simpa using ha)]
      simp
    rw [h1]
    by_cases hb : b < n
    · rw [List.getD_eq_getElem _ _ (by simpa using hb)]
      simp
    · exact List.getD_eq_default _ _ (by simpa using Nat.le_of_not_lt hb)
  · have h1 : (List.replicate n (List.replicate n 0)).getD a [] = [] :=
      List.getD_eq_default _ _ (by simpa using Nat.le_of_not_lt ha)
    rw [h1]
    rfl

lemma mapIndex_spec {nodes : List String} {id : String} {i : Nat}
    (h : mapIndex nodes id = some i) :
    i < nodes.length ∧ nodes.getD i "" = id := by
  unfold mapIndex at h
  have hmem : i ∈ (List.range nodes.length).filter
      (fun k => decide (nodes.getD k "" = id)) := by
    obtain ⟨h', heq⟩ := List.mem_getLast?_eq_getLast (show i ∈ _ from h)
    rw [heq]
    exact List.getLast_mem h'
  obtain ⟨hr, hp⟩ := List.mem_filter.1 hmem
  exact ⟨List.mem_range.1 hr, of_decide_eq_true hp⟩

/-- the square-and-symmetric invariant preserved by edge insertion. -/
def SquareSym (n : Nat) (m : List (List Nat)) : Prop :=
  m.length = n ∧ (∀ r ∈ m, r.length = n) ∧ (∀ a b, at2 m a b = at2 m b a)

lemma squareSym_insert {n : Nat} {m : List (List Nat)} {i j : Nat}
    (h : SquareSym n m) (hi : i < n) (hj : j < n) :
    SquareSym n (set2 (set2 m i j 1) j i 1) := by
  obtain ⟨hlen, hrow, hsym⟩ := h
  have hil : i < m.length := by omega
  have hjl : j < m.length := by omega
  have hrowlen : ∀ a, a < m.length → (m.getD a []).length = n := by
    intro a ha
    rw [List.getD_eq_getElem _ _ ha]
    exact hrow _ (List.getElem_mem ha)
  have hlen1 : (set2 m i j 1).length = m.length := length_set2 m i j 1
  have hrow1 : ∀ r ∈ set2 m i j 1, r.length = n := by
    intro r hr
    rcases List.mem_or_eq_of_mem_set hr with h' | h'
    · exact hrow r h'
    · rw [h']
      rw [List.length_set]
      exact hrowlen i hil
  have hrowlen1 : ∀ a, a < m.length → ((set2 m i j 1).getD a []).length = n := by
    intro a ha
    rw [List.getD_eq_getElem _ _ (by omega : a < (set2 m i j 1).length)]
    exact hrow1 _ (List.getElem_mem _)
  refine ⟨by rw [length_set2, length_set2]; exact hlen, ?_, ?_⟩
  · intro r hr
    rcases List.mem_or_eq_of_mem_set hr with h' | h'
    · exact hrow1 r h'
    · rw [h', List.length_set]
      exact hrowlen1 j hjl
  · intro a b
    have hrowlen1a : ∀ c, c < m.length → ((set2 m i j 1).getD c []).length = n :=
      hrowlen1
    by_cases hji : a = j ∧ b = i
    · obtain ⟨rfl, rfl⟩ := hji
      by_cases hij : a = b
      · rw [hij]
      · have l1 : at2 (set2 (set2 m b a 1) a b 1) a b = 1 :=
          at2_set2_self _ 1 (by rw [hlen1]; omega)
            (by rw [hrowlen1a a (by omega)]; omega)
        have l2 : at2 (set2 (set2 m b a 1) a b 1) b a = 1 := by
          rw [@at2_set2_other (set2 m b a 1) a b b a 1 (fun hc => hij hc.1.symm)]
          exact at2_set2_self _ 1 (by omega) (by rw [hrowlen b (by omega)]; omega)
        rw [l1, l2]
    · by_cases hij2 : a = i ∧ b = j
      · obtain ⟨rfl, rfl⟩ := hij2
        by_cases hij : a = b
        · rw [hij]
        · have l1 : at2 (set2 (set2 m a b 1) b a 1) a b = 1 := by
            rw [@at2_set2_other (set2 m a b 1) b a a b 1 (fun hc => hij hc.1)]
            exact at2_set2_self _ 1 (by omega) (by rw [hrowlen a (by omega)]; omega)
          have l2 : at2 (set2 (set2 m a b 1) b a 1) b a = 1 :=
            at2_set2_self _ 1 (by rw [hlen1]; omega)
              (by rw [hrowlen1a b (by omega)]; omega)
          rw [l1, l2]
      · have hswap1 : ¬(b = j ∧ a = i) := fun hc => hij2 ⟨hc.2, hc.1⟩
        have hswap2 : ¬(b = i ∧ a = j) := fun hc => hji ⟨hc.2, hc.1⟩
        rw [@at2_set2_other (set2 m i j 1) j i a b 1 hji,
          @at2_set2_other m i j a b 1 hij2,
          @at2_set2_other (set2 m i j 1) j i b a 1 hswap1,
          @at2_set2_other m i j b a 1 hswap2]
        exact hsym a b

/-- one foldl step of buildAdjacencyMatrix. -/
def addEdge (nodes : List String) (m : List (List Nat)) (e : Edge) :
    List (List Nat) :=
  match mapIndex nodes e.source, mapIndex nodes e.target with
  | some i, some j => set2 (set2 m i j 1) j i 1
  | _, _ => m

lemma buildAdjacencyMatrix_eq_foldl (nodes : List String) (edges : List Edge) :
    buildAdjacencyMatrix nodes edges
      = edges.foldl (addEdge nodes)
          (List.replicate nodes.length (List.replicate nodes.length 0)) := rfl

lemma foldl_addEdge_squareSym (nodes : List String) :
    ∀ (edges : List Edge) (m : List (List Nat)),
      SquareSym nodes.length m →
      SquareSym nodes.length (edges.foldl (addEdge nodes) m) := by
  intro edges
  induction edges with
  | nil => intro m h; exact h
  | cons e rest ih =>
    intro m h
    rw [List.foldl_cons]
    apply ih
    unfold addEdge
    cases hs : mapIndex nodes e.source with
    | none => cases ht : mapIndex nodes e.target <;> exact h
    | some i =>
      cases ht : mapIndex nodes e.target with
      | none => exact h
      | some j =>
        exact squareSym_insert h (mapIndex_spec hs).1 (mapIndex_spec ht).1

lemma foldl_addEdge_diag (nodes : List String) :
    ∀ (edges : List Edge) (m : List (List Nat)),
      SquareSym nodes.length m →
      (∀ e ∈ edges, e.source ≠ e.target) →
      (∀ a, at2 m a a = 0) →
      (∀ a, at2 (edges.foldl (addEdge nodes) m) a a = 0) := by
  intro edges
  induction edges with
  | nil => intro m _ _ hd; exact hd
  | cons e rest ih =>
    intro m hsq hne hd
    rw [List.foldl_cons]
    have hsq' : SquareSym nodes.length (addEdge nodes m e) := by
      unfold addEdge
      cases hs : mapIndex nodes e.source with
      | none => cases ht : mapIndex nodes e.target <;> exact hsq
      | some i =>
        cases ht : mapIndex nodes e.target with
        | none => exact hsq
        | some j =>
          exact squareSym_insert hsq (mapIndex_spec hs).1 (mapIndex_spec ht).1
    have hd' : ∀ a, at2 (addEdge nodes m e) a a = 0 := by
      unfold addEdge
      cases hs : mapIndex nodes e.source with
      | none => cases ht : mapIndex nodes e.target <;> exact hd
      | some i =>
        cases ht : mapIndex nodes e.target with
        | none => exact hd
        | some j =>
          intro a
          have hij : i ≠ j := by
            intro hij
            apply hne e (List.mem_cons_self e rest)
            have h1 := (mapIndex_spec hs).2
            have h2 := (mapIndex_spec ht).2
            rw [← h1, ← h2, hij]
          rw [@at2_set2_other (set2 m i j 1) j i a a 1
              (fun hc => hij (hc.2.symm.trans hc.1)),
            @at2_set2_other m i j a a 1 (fun hc => hij (hc.1.symm.trans hc.2))]
          exact hd a
    exact ih _ hsq' (fun e' he' => hne e' (List.mem_cons_of_mem _ he')) hd'

lemma foldl_addEdge_filter (nodes : List String) :
    ∀ (edges : List Edge) (m : List (List Nat)),
      edges.foldl (addEdge nodes) m
        = (edges.filter (fun e =>
            (mapIndex nodes e.source).isSome && (mapIndex nodes e.target).isSome)).foldl
            (addEdge nodes) m := by
  intro edges
  induction edges with
  | nil => intro m; rfl
  | cons e rest ih =>
    intro m
    rw [List.foldl_cons]
    cases hs : mapIndex nodes e.source with
    | none =>
      have hdrop : (addEdge nodes) m e = m := by unfold addEdge; rw [hs]
      rw [hdrop, List.filter_cons, if_neg (by simp [hs]), ih]
    | some i =>
      cases ht : mapIndex nodes e.target with
      | none =>
        have hdrop : (addEdge nodes) m e = m := by unfold addEdge; rw [hs, ht]
        rw [hdrop, List.filter_cons, if_neg (by simp [hs, ht]), ih]
      | some j =>
        rw [List.filter_cons, if_pos (by simp [hs, ht]), List.foldl_cons, ih]

/-- C9 amended: the built adjacency matrix is square of dimension
`nodes.length`, symmetric, and edges with an unknown endpoint are silently
dropped (building from the filtered edge list yields the same matrix); every
diagonal entry is 0 provided no edge is a self-loop — a self-loop edge on a
known node instead sets that diagonal entry to 1. -/
theorem buildAdjacency_props (nodes : List String) (edges : List Edge) :
    (buildAdjacencyMatrix nodes edges).length = nodes.length ∧
    (∀ r ∈ buildAdjacencyMatrix nodes edges, r.length = nodes.length) ∧
    (∀ a b, at2 (buildAdjacencyMatrix nodes edges) a b
      = at2 (buildAdjacencyMatrix nodes edges) b a) ∧
    (buildAdjacencyMatrix nodes edges
      = buildAdjacencyMatrix nodes (edges.filter (fun e =>
          (mapIndex nodes e.source).isSome && (mapIndex nodes e.target).isSome))) ∧
    ((∀ e ∈ edges, e.source ≠ e.target) →
      ∀ a, at2 (buildAdjacencyMatrix nodes edges) a a = 0) := by
  have hinit : SquareSym nodes.length
      (List.replicate nodes.length (List.replicate nodes.length 0)) := by
    refine ⟨by simp, ?_, ?_⟩
    · intro r hr
      rw [List.eq_of_mem_replicate hr]
      simp
    · intro a b
      rw [at2_replicate_zero, at2_replicate_zero]
  have hsq := foldl_addEdge_squareSym nodes edges _ hinit
  rw [← buildAdjacencyMatrix_eq_foldl] at hsq
  refine ⟨hsq.1, hsq.2.1, hsq.2.2, ?_, ?_⟩
  · rw [buildAdjacencyMatrix_eq_foldl, buildAdjacencyMatrix_eq_foldl,
      foldl_addEdge_filter]
  · intro hne
    have := foldl_addEdge_diag nodes edges _ hinit hne
      (fun a => at2_replicate_zero _ _ _)
    rw [← buildAdjacencyMatrix_eq_foldl] at this
    exact this

/-- witness for buildAdjacency_props: two nodes, one edge with an unknown
endpoint and one real edge; the matrix is 2-by-2, the unknown edge is
dropped, and the self-loop-free hypothesis yields a zero diagonal entry. -/
theorem buildAdjacency_props_witness :
    (buildAdjacencyMatrix ["a", "b"] [⟨"a", "x"⟩, ⟨"b", "a"⟩]).length = 2 ∧
    at2 (buildAdjacencyMatrix ["a", "b"] [⟨"a", "x"⟩, ⟨"b", "a"⟩]) 0 0 = 0 := by
  constructor
  · exact (buildAdjacency_props ["a", "b"] [⟨"a", "x"⟩, ⟨"b", "a"⟩]).1
  · exact (buildAdjacency_props ["a", "b"] [⟨"a", "x"⟩, ⟨"b", "a"⟩]).2.2.2.2
      (by decide) 0

/-! DSATUR vertex selection (C4). -/

lemma head_filter_range_least {m : Nat} {p : Nat → Bool} {c : Nat}
    (h : ((List.range m).filter p).head? = some c) :
    c < m ∧ p c = true ∧ ∀ b, b < c → p b = false := by
  induction m with
  | zero => simp at h
  | succ m ih =>
    rw [List.range_succ, List.filter_append] at h
    cases hf : (List.range m).filter p with
    | nil =>
      rw [hf, List.nil_append] at h
      by_cases hp : p m
      · simp [hp] at h
        subst h
        refine ⟨Nat.lt_succ_self m, hp, ?_⟩
        intro b hb
        have hb' : b ∈ List.range m := List.mem_range.2 (by omega)
        by_contra hcon
        have : b ∈ (List.range m).filter p := by
          rw [List.mem_filter]
          exact ⟨hb', by simpa using hcon⟩
        rw [hf] at this
        exact absurd this (List.not_mem_nil b)
      · simp [hp] at h
    | cons d l =>
      rw [hf] at h
      rw [List.cons_append, List.head?_cons, Option.some.injEq] at h
      subst h
      have := ih (by rw [hf, List.head?_cons])
      exact ⟨by omega, this.2.1, this.2.2⟩

lemma availableColors_head {adjacency : List (List Nat)} {vertex : Nat}
    {colors : List (Option Nat)} {maxColors c : Nat}
    (h : (availableColors adjacency vertex colors maxColors).head? = some c) :
    c < maxColors ∧ c ∉ usedNeighborColors adjacency vertex colors ∧
    ∀ b, b < c → b ∈ usedNeighborColors adjacency vertex colors := by
  obtain ⟨h1, h2, h3⟩ := head_filter_range_least h
  refine ⟨h1, of_decide_eq_true h2, ?_⟩
  intro b hb
  have := h3 b hb
  by_contra hcon
  rw [decide_eq_false_iff_not] at this
  exact this hcon

lemma chooseFold_spec (adjacency : List (List Nat)) (degree : List Nat)
    (colors : List (Option Nat)) :
    ∀ k,
      ((((List.range k).foldl (chooseStep adjacency degree colors) (-1, -1, -1))
          = (-1, -1, -1) ∧ ∀ u, u < k → colors.getD u none ≠ none) ∨
       (∃ v : Nat,
          ((List.range k).foldl (chooseStep adjacency degree colors) (-1, -1, -1))
            = ((saturationDegree adjacency v colors : Int),
               (degree.getD v 0 : Int), (v : Int)) ∧
          v < k ∧ colors.getD v none = none ∧
          (∀ u, u < k → colors.getD u none = none →
            (saturationDegree adjacency u colors < saturationDegree adjacency v colors ∨
             (saturationDegree adjacency u colors = saturationDegree adjacency v colors ∧
              degree.getD u 0 ≤ degree.getD v 0))) ∧
          (∀ u, u < k → colors.getD u none = none → u < v →
            (saturationDegree adjacency u colors < saturationDegree adjacency v colors ∨
             (saturationDegree adjacency u colors = saturationDegree adjacency v colors ∧
              degree.getD u 0 < degree.getD v 0))))) := by
  intro k
  induction k with
  | zero =>
    left
    exact ⟨rfl, by omega⟩
  | succ k ih =>
    rw [List.range_succ, List.foldl_append, List.foldl_cons, List.foldl_nil]
    rcases ih with ⟨heq, hall⟩ | ⟨v, heq, hvk, hvu, hmax, hstrict⟩
    · rw [heq]
      by_cases hck : colors.getD k none = none
      · right
        refine ⟨k, ?_, Nat.lt_succ_self k, hck, ?_, ?_⟩
        · simp only [chooseStep, if_pos hck]
          rw [if_pos (by left; omega)]
        · intro u hu hcu
          rcases Nat.lt_succ_iff_lt_or_eq.1 hu with h | h
          · exact absurd hcu (hall u h)
          · subst h
            right
            exact ⟨rfl, Nat.le_refl _⟩
        · intro u hu hcu huv
          rcases Nat.lt_succ_iff_lt_or_eq.1 hu with h | h
          · exact absurd hcu (hall u h)
          · omega
      · left
        refine ⟨?_, ?_⟩
        · simp only [chooseStep, if_neg hck]
        · intro u hu
          rcases Nat.lt_succ_iff_lt_or_eq.1 hu with h | h
          · exact hall u h
          · subst h
            exact hck
    · rw [heq]
      by_cases hck : colors.getD k none = none
      · by_cases hcond : (saturationDegree adjacency k colors : Int)
            > (saturationDegree adjacency v colors : Int) ∨
            ((saturationDegree adjacency k colors : Int)
              = (saturationDegree adjacency v colors : Int) ∧
             (degree.getD k 0 : Int) > (degree.getD v 0 : Int))
        · right
          refine ⟨k, ?_, Nat.lt_succ_self k, hck, ?_, ?_⟩
          · simp only [chooseStep, if_pos hck]
            rw [if_pos hcond]
          · intro u hu hcu
            rcases Nat.lt_succ_iff_lt_or_eq.1 hu with h | h
            · have h1 := hmax u h hcu
              omega
            · subst h
              right
              exact ⟨rfl, Nat.le_refl _⟩
          · intro u hu hcu huk
            have h : u < k := huk
            have h1 := hmax u h hcu
            omega
        · right
          refine ⟨v, ?_, by omega, hvu, ?_, ?_⟩
          · simp only [chooseStep, if_pos hck]
            rw [if_neg hcond]
          · intro u hu hcu
            rcases Nat.lt_succ_iff_lt_or_eq.1 hu with h | h
            · exact hmax u h hcu
            · subst h
              omega
          · intro u hu hcu huv
            exact hstrict u (by omega) hcu huv
      · right
        refine ⟨v, ?_, by omega, hvu, ?_, ?_⟩
        · simp only [chooseStep, if_neg hck]
        · intro u hu hcu
          rcases Nat.lt_succ_iff_lt_or_eq.1 hu with h | h
          · exact hmax u h hcu
          · subst h
            exact absurd hcu hck
        · intro u hu hcu huv
          rcases Nat.lt_succ_iff_lt_or_eq.1 hu with h | h
          · exact hstrict u h hcu huv
          · subst h
            exact absurd hcu hck

/-- C4: the vertex DSATUR colors next is the uncolored vertex with the highest
saturation degree (the count of distinct neighbor colors, recomputed against
the current color state), ties broken by highest raw degree and then by
lowest index, and — whenever a color is available — it receives the smallest
color index not used by any already-colored neighbor. -/
theorem dsatur_selects_max_saturation (adjacency : List (List Nat))
    (degree : List Nat) (colors : List (Option Nat)) (n maxColors : Nat)
    (hdeg : ∀ u, u < n → degree.getD u 0 = rowDegree adjacency u)
    (hex : ∃ u, u < n ∧ colors.getD u none = none) :
    0 ≤ chooseVertex adjacency degree colors n ∧
    (chooseVertex adjacency degree colors n).toNat < n ∧
    colors.getD (chooseVertex adjacency degree colors n).toNat none = none ∧
    (∀ u, u < n → colors.getD u none = none →
      (saturationDegree adjacency u colors
         < saturationDegree adjacency (chooseVertex adjacency degree colors n).toNat colors ∨
       (saturationDegree adjacency u colors
          = saturationDegree adjacency (chooseVertex adjacency degree colors n).toNat colors ∧
        rowDegree adjacency u
          ≤ rowDegree adjacency (chooseVertex adjacency degree colors n).toNat))) ∧
    (∀ u, u < n → colors.getD u none = none →
      u < (chooseVertex adjacency degree colors n).toNat →
      (saturationDegree adjacency u colors
         < saturationDegree adjacency (chooseVertex adjacency degree colors n).toNat colors ∨
       (saturationDegree adjacency u colors
          = saturationDegree adjacency (chooseVertex adjacency degree colors n).toNat colors ∧
        rowDegree adjacency u
          < rowDegree adjacency (chooseVertex adjacency degree colors n).toNat))) ∧
    (∀ c, (availableColors adjacency (chooseVertex adjacency degree colors n).toNat
        colors maxColors).head? = some c →
      c < maxColors ∧
      c ∉ usedNeighborColors adjacency (chooseVertex adjacency degree colors n).toNat colors ∧
      ∀ b, b < c → b ∈ usedNeighborColors adjacency
        (chooseVertex adjacency degree colors n).toNat colors) := by
  rcases chooseFold_spec adjacency degree colors n with ⟨heq, hall⟩ | h
  · obtain ⟨u, hu, hcu⟩ := hex
    exact absurd hcu (hall u hu)
  · obtain ⟨v, heq, hvk, hvu, hmax, hstrict⟩ := h
    have hcv : chooseVertex adjacency degree colors n = (v : Int) := by
      unfold chooseVertex
      rw [heq]
    have htn : (chooseVertex adjacency degree colors n).toNat = v := by
      rw [hcv]
      exact Int.toNat_natCast v
    refine ⟨by rw [hcv]; exact Int.natCast_nonneg v, by rw [htn]; exact hvk,
      by rw [htn]; exact hvu, ?_, ?_, ?_⟩
    · intro u hu hcu
      rw [htn]
      have h1 := hmax u hu hcu
      rw [hdeg u hu, hdeg v hvk] at h1
      exact h1
    · intro u hu hcu huv
      rw [htn] at huv ⊢
      have h1 := hstrict u hu hcu huv
      rw [hdeg u hu, hdeg v hvk] at h1
      exact h1
    · intro c hc
      exact availableColors_head hc

/-- witness for dsatur_selects_max_saturation: on the triangle with node 1
colored, the selection picks an uncolored vertex (index 0) whose saturation
is maximal, and the smallest available color for it is 1. -/
theorem dsatur_selects_max_saturation_witness :
    chooseVertex triangleGraph.adjacency [2, 2, 2] [none, some 0, none] 3 = 0 ∧
    (0 ≤ chooseVertex triangleGraph.adjacency [2, 2, 2] [none, some 0, none] 3 ∧
     (chooseVertex triangleGraph.adjacency [2, 2, 2] [none, some 0, none] 3).toNat < 3) := by
  refine ⟨by decide, ?_⟩
  have h := dsatur_selects_max_saturation triangleGraph.adjacency [2, 2, 2]
    [none, some 0, none] 3 4 (by decide) ⟨0, by decide, by decide⟩
  exact ⟨h.1, h.2.1⟩

/-! Chromatic count analysis (C2). -/

/-- the colors present in a color array (multiset of assigned values). -/
def usedVals (colors : List (Option Nat)) : List Nat := colors.filterMap id

/-- a color list is downward closed: any color below a present color is
present. -/
def DownClosed (l : List Nat) : Prop := ∀ c c', c' ≤ c → c ∈ l → c' ∈ l

lemma filterMap_getD_range (colors : List (Option Nat)) :
    (List.range colors.length).filterMap (fun i => colors.getD i none)
      = usedVals colors := by
  induction colors with
  | nil => simp [usedVals]
  | cons c cs ih =>
    rw [List.length_cons, List.range_succ_eq_map, List.filterMap_cons,
      List.filterMap_map]
    have hcomp : ((fun i => (c :: cs).getD i none) ∘ Nat.succ)
        = fun i => cs.getD i none := by
      funext i
      simp [Function.comp, List.getD_cons_succ]
    rw [hcomp, ih]
    cases c with
    | none => simp [usedVals]
    | some v => simp [usedVals]

lemma map_getD_range_self (l : List String) :
    (List.range l.length).map (fun i => l.getD i "") = l := by
  induction l with
  | nil => simp
  | cons a l ih =>
    rw [List.length_cons, List.range_succ_eq_map, List.map_cons, List.map_map]
    have hcomp : ((fun i => (a :: l).getD i "") ∘ Nat.succ)
        = fun i => l.getD i "" := by
      funext i
      simp [Function.comp, List.getD_cons_succ]
    rw [hcomp, ih]
    simp

lemma setA_append_of_fresh (m : List (String × Nat)) (k : String) (v : Nat)
    (h : ∀ p ∈ m, p.1 ≠ k) : setA m k v = m ++ [(k, v)] := by
  induction m with
  | nil => rfl
  | cons p rest ih =>
    unfold setA
    rw [if_neg (h p (List.mem_cons_self p rest)), List.cons_append,
      ih (fun q hq => h q (List.mem_cons_of_mem p hq))]

lemma valuesA_assignmentsOf_aux (nodes : List String) (colors : List (Option Nat)) :
    ∀ (idxs : List Nat) (m : List (String × Nat)),
      (∀ p ∈ m, ∀ i ∈ idxs, p.1 ≠ nodes.getD i "") →
      (idxs.map (fun i => nodes.getD i "")).Nodup →
      valuesA (idxs.foldl (assignStep nodes colors) m)
      = valuesA m ++ idxs.filterMap (fun i => colors.getD i none) := by
  intro idxs
  induction idxs with
  | nil => intro m _ _; simp
  | cons i rest ih =>
    intro m hdisj hnd
    rw [List.foldl_cons, List.filterMap_cons]
    cases hci : colors.getD i none with
    | none =>
      have hstep : assignStep nodes colors m i = m := by
        unfold assignStep
        rw [hci]
      rw [hstep]
      have := ih m
        (fun p hp j hj => hdisj p hp j (List.mem_cons_of_mem i hj))
        (by rw [List.map_cons] at hnd; exact hnd.of_cons)
      rw [this]
    | some c =>
      have hfresh : ∀ p ∈ m, p.1 ≠ nodes.getD i "" :=
        fun p hp => hdisj p hp i (List.mem_cons_self i rest)
      have hstep : assignStep nodes colors m i = m ++ [(nodes.getD i "", c)] := by
        unfold assignStep
        rw [hci]
        exact setA_append_of_fresh m _ c hfresh
      rw [hstep]
      rw [List.map_cons, List.nodup_cons] at hnd
      have hdisj' : ∀ p ∈ m ++ [(nodes.getD i "", c)], ∀ j ∈ rest,
          p.1 ≠ nodes.getD j "" := by
        intro p hp j hj
        rcases List.mem_append.1 hp with h' | h'
        · exact hdisj p h' j (List.mem_cons_of_mem i hj)
        · rw [List.mem_singleton.1 h']
          intro heq
          apply hnd.1
          rw [show nodes.getD i "" = nodes.getD j "" from heq]
          exact List.mem_map_of_mem _ hj
      rw [ih (m ++ [(nodes.getD i "", c)]) hdisj' hnd.2]
      simp [valuesA]

lemma valuesA_assignmentsOf (nodes : List String) (colors : List (Option Nat))
    (hnd : nodes.Nodup) :
    valuesA (assignmentsOf nodes colors)
      = (List.range nodes.length).filterMap (fun i => colors.getD i none) := by
  have h := valuesA_assignmentsOf_aux nodes colors (List.range nodes.length) []
    (by intro p hp; exact absurd hp (List.not_mem_nil p))
    (by rw [map_getD_range_self]; exact hnd)
  rw [assignmentsOf, h]
  simp [valuesA]

lemma getD_some_mem {colors : List (Option Nat)} {i x : Nat}
    (h : colors.getD i none = some x) : some x ∈ colors := by
  by_cases hi : i < colors.length
  · rw [List.getD_eq_getElem _ _ hi] at h
    rw [← h]
    exact List.getElem_mem hi
  · rw [List.getD_eq_default _ _ (Nat.le_of_not_lt hi)] at h
    exact absurd h (by simp)

lemma mem_usedVals {colors : List (Option Nat)} {x : Nat} :
    x ∈ usedVals colors ↔ some x ∈ colors := by
  unfold usedVals
  rw [List.mem_filterMap]
  constructor
  · rintro ⟨a, ha, hax⟩
    rw [show a = some x from hax] at ha
    exact ha
  · intro h
    exact ⟨some x, h, rfl⟩

lemma usedNeighbor_sub_usedVals {adjacency : List (List Nat)} {v x : Nat}
    {colors : List (Option Nat)}
    (h : x ∈ usedNeighborColors adjacency v colors) : x ∈ usedVals colors := by
  unfold usedNeighborColors at h
  obtain ⟨i, _, hi⟩ := List.mem_filterMap.1 h
  rw [mem_usedVals]
  by_cases hadj : at2 adjacency v i = 1
  · rw [if_pos hadj] at hi
    exact getD_some_mem hi
  · rw [if_neg hadj] at hi
    exact absurd hi (by simp)

lemma usedVals_set {colors : List (Option Nat)} {v c : Nat}
    (hv : v < colors.length) (hcv : colors.getD v none = none) :
    ∀ x, x ∈ usedVals (colors.set v (some c)) ↔ x = c ∨ x ∈ usedVals colors := by
  induction colors generalizing v with
  | nil => simp at hv
  | cons a cs ih =>
    cases v with
    | zero =>
      rw [List.getD_cons_zero] at hcv
      subst hcv
      intro x
      simp [usedVals, List.set]
    | succ v =>
      rw [List.getD_cons_succ] at hcv
      intro x
      have hv' : v < cs.length := by simpa using hv
      have := ih hv' hcv x
      cases a with
      | none => simpa [usedVals] using this
      | some b =>
        simp only [usedVals, List.set, List.filterMap_cons] at this ⊢
        simp at this ⊢
        rw [this]
        tauto


lemma downClosed_step {adjacency : List (List Nat)} {maxColors : Nat}
    {colors : List (Option Nat)} {v c : Nat}
    (hcv : colors.getD v none = none)
    (hdc : DownClosed (usedVals colors))
    (hhead : (availableColors adjacency v colors maxColors).head? = some c) :
    DownClosed (usedVals (colors.set v (some c))) := by
  by_cases hv : v < colors.length
  · intro x x' hle hx
    rw [usedVals_set hv hcv] at hx ⊢
    rcases hx with rfl | hx
    · rcases Nat.lt_or_ge x' x with hlt | hge
      · right
        exact usedNeighbor_sub_usedVals ((availableColors_head hhead).2.2 x' hlt)
      · left
        omega
    · exact Or.inr (hdc x x' hle hx)
  · rw [List.set_eq_of_length_le (Nat.le_of_not_lt hv)]
    exact hdc

lemma maxColorUsed_eq_fold (colors : List (Option Nat)) :
    maxColorUsed colors
      = (usedVals colors).foldl (fun (m : Int) (v : Nat) => max m (v : Int)) (-1) := by
  suffices h : ∀ init : Int,
      colors.foldl (fun m c => match c with | some v => max m (v : Int) | none => m) init
        = (usedVals colors).foldl (fun (m : Int) (v : Nat) => max m (v : Int)) init from h (-1)
  induction colors with
  | nil => intro init; rfl
  | cons a cs ih =>
    intro init
    cases a with
    | none =>
      rw [List.foldl_cons]
      exact ih init
    | some v =>
      rw [List.foldl_cons, show usedVals (some v :: cs) = v :: usedVals cs from rfl,
        List.foldl_cons]
      exact ih (max init (v : Int))

lemma fold_max_ge (l : List Nat) :
    ∀ init : Int, init ≤ l.foldl (fun (m : Int) (v : Nat) => max m (v : Int)) init ∧
      ∀ x ∈ l, (x : Int) ≤ l.foldl (fun (m : Int) (v : Nat) => max m (v : Int)) init := by
  induction l with
  | nil => intro init; exact ⟨le_refl _, by simp⟩
  | cons a l ih =>
    intro init
    rw [List.foldl_cons]
    obtain ⟨h1, h2⟩ := ih (max init (a : Int))
    refine ⟨le_trans (le_max_left _ _) h1, ?_⟩
    intro x hx
    rcases List.mem_cons.1 hx with rfl | hx
    · exact le_trans (le_max_right _ _) h1
    · exact h2 x hx

lemma fold_max_cases (l : List Nat) :
    ∀ init : Int, l.foldl (fun (m : Int) (v : Nat) => max m (v : Int)) init = init ∨
      ∃ x ∈ l, l.foldl (fun (m : Int) (v : Nat) => max m (v : Int)) init = (x : Int) := by
  induction l with
  | nil => intro init; exact Or.inl rfl
  | cons a l ih =>
    intro init
    rw [List.foldl_cons]
    rcases ih (max init (a : Int)) with h | ⟨x, hx, h⟩
    · rcases max_choice init (a : Int) with hm | hm
      · exact Or.inl (h.trans hm)
      · exact Or.inr ⟨a, List.mem_cons_self a l, h.trans hm⟩
    · exact Or.inr ⟨x, List.mem_cons_of_mem a hx, h⟩

lemma dedup_length_of_downClosed (l : List Nat) (hdc : DownClosed l) :
    l.dedup.length = ((l.foldl (fun (m : Int) (v : Nat) => max m (v : Int)) (-1)) + 1).toNat := by
  cases hl : l with
  | nil => rfl
  | cons a t =>
    rw [← hl]
    obtain ⟨hinit, hbound⟩ := fold_max_ge l (-1)
    rcases fold_max_cases l (-1) with h | ⟨x0, hx0, h⟩
    · exfalso
      have ha := hbound a (by rw [hl]; exact List.mem_cons_self a t)
      rw [h] at ha
      omega
    · have hmem_iff : ∀ y : Nat, y ∈ l ↔ y < (l.foldl
          (fun (m : Int) (v : Nat) => max m (v : Int)) (-1)).toNat + 1 := by
        intro y
        constructor
        · intro hy
          have := hbound y hy
          omega
        · intro hy
          have hyx : y ≤ x0 := by
            rw [h] at hy
            omega
          exact hdc x0 y hyx hx0
      have hfin : l.toFinset = Finset.range
          ((l.foldl (fun (m : Int) (v : Nat) => max m (v : Int)) (-1)).toNat + 1) := by
        ext y
        rw [List.mem_toFinset, Finset.mem_range]
        exact hmem_iff y
      have hcard := List.card_toFinset l
      rw [hfin, Finset.card_range] at hcard
      have hnn : (0 : Int) ≤ l.foldl (fun (m : Int) (v : Nat) => max m (v : Int)) (-1) := by
        rw [h]
        exact Int.natCast_nonneg x0
      rw [← hcard]
      omega

lemma greedyGo_length (adjacency : List (List Nat)) (maxColors : Nat) :
    ∀ (ord : List Nat) (colors colors' : List (Option Nat)),
      greedyGo adjacency maxColors ord colors = some colors' →
      colors'.length = colors.length := by
  intro ord
  induction ord with
  | nil =>
    intro colors colors' h
    cases h
    rfl
  | cons i rest ih =>
    intro colors colors' h
    unfold greedyGo at h
    cases hci : colors.getD i none with
    | some c =>
      rw [hci] at h
      exact ih colors colors' h
    | none =>
      rw [hci] at h
      cases hhd : (availableColors adjacency i colors maxColors).head? with
      | none =>
        rw [hhd] at h
        cases h
      | some c =>
        rw [hhd] at h
        have := ih _ _ h
        rw [this, List.length_set]

lemma greedyGo_downClosed (adjacency : List (List Nat)) (maxColors : Nat) :
    ∀ (ord : List Nat) (colors colors' : List (Option Nat)),
      DownClosed (usedVals colors) →
      greedyGo adjacency maxColors ord colors = some colors' →
      DownClosed (usedVals colors') := by
  intro ord
  induction ord with
  | nil =>
    intro colors colors' hdc h
    cases h
    exact hdc
  | cons i rest ih =>
    intro colors colors' hdc h
    unfold greedyGo at h
    cases hci : colors.getD i none with
    | some c =>
      rw [hci] at h
      exact ih colors colors' hdc h
    | none =>
      rw [hci] at h
      cases hhd : (availableColors adjacency i colors maxColors).head? with
      | none =>
        rw [hhd] at h
        cases h
      | some c =>
        rw [hhd] at h
        exact ih _ _ (downClosed_step hci hdc hhd) h

lemma dsaturLoop_length (adjacency : List (List Nat)) (degree : List Nat)
    (maxColors n : Nat) :
    ∀ (fuel : Nat) (colors colors' : List (Option Nat)),
      dsaturLoop adjacency degree maxColors n fuel colors = some colors' →
      colors'.length = colors.length := by
  intro fuel
  induction fuel with
  | zero =>
    intro colors colors' h
    cases h
    rfl
  | succ fuel ih =>
    intro colors colors' h
    unfold dsaturLoop at h
    by_cases hneg : chooseVertex adjacency degree colors n < 0
    · rw [if_pos hneg] at h
      cases h
      rfl
    · rw [if_neg hneg] at h
      cases hhd : (availableColors adjacency
          (chooseVertex adjacency degree colors n).toNat colors maxColors).head? with
      | none =>
        rw [hhd] at h
        cases h
      | some c =>
        rw [hhd] at h
        have := ih _ _ h
        rw [this, List.length_set]

lemma chooseVertex_uncolored {adjacency : List (List Nat)} {degree : List Nat}
    {colors : List (Option Nat)} {n : Nat}
    (hneg : ¬ chooseVertex adjacency degree colors n < 0) :
    colors.getD (chooseVertex adjacency degree colors n).toNat none = none := by
  rcases chooseFold_spec adjacency degree colors n with ⟨heq, _⟩ |
    ⟨v, heq, _, hvu, _, _⟩
  · exfalso
    apply hneg
    unfold chooseVertex
    rw [heq]
    decide
  · unfold chooseVertex
    rw [heq]
    simpa [Int.toNat_natCast] using hvu

lemma dsaturLoop_downClosed (adjacency : List (List Nat)) (degree : List Nat)
    (maxColors n : Nat) :
    ∀ (fuel : Nat) (colors colors' : List (Option Nat)),
      DownClosed (usedVals colors) →
      dsaturLoop adjacency degree maxColors n fuel colors = some colors' →
      DownClosed (usedVals colors') := by
  intro fuel
  induction fuel with
  | zero =>
    intro colors colors' hdc h
    cases h
    exact hdc
  | succ fuel ih =>
    intro colors colors' hdc h
    unfold dsaturLoop at h
    by_cases hneg : chooseVertex adjacency degree colors n < 0
    · rw [if_pos hneg] at h
      cases h
      exact hdc
    · rw [if_neg hneg] at h
      cases hhd : (availableColors adjacency
          (chooseVertex adjacency degree colors n).toNat colors maxColors).head? with
      | none =>
        rw [hhd] at h
        cases h
      | some c =>
        rw [hhd] at h
        exact ih _ _ (downClosed_step (chooseVertex_uncolored hneg) hdc hhd) h

lemma usedVals_replicate_none (n : Nat) :
    usedVals (List.replicate n (none : Option Nat)) = [] := by
  induction n with
  | zero => rfl
  | succ n ih =>
    rw [List.replicate_succ]
    exact ih


lemma downClosed_nil : DownClosed [] := by
  intro c c' _ hc
  exact absurd hc (List.not_mem_nil c)

lemma chromatic_eq_distinct_of_run (g : Graph) (colors' : List (Option Nat))
    (hnd : g.nodes.Nodup) (hlen : colors'.length = g.nodes.length)
    (hdc : DownClosed (usedVals colors')) :
    (maxColorUsed colors' + 1).toNat
      = (valuesA (assignmentsOf g.nodes colors')).dedup.length := by
  rw [valuesA_assignmentsOf g.nodes colors' hnd, ← hlen, filterMap_getD_range,
    dedup_length_of_downClosed _ hdc, maxColorUsed_eq_fold]

/-- C2 amended: assignColor always recomputes `chromatic` as the number of
distinct color values in the mapping; the three heuristic algorithms set
`chromatic = maxColorUsed + 1`, which equals the number of distinct color
indices across mapped nodes whenever the constraints list is empty and node
ids are distinct (a pinned constraint color can instead make `chromatic`
exceed the distinct count). -/
theorem chromatic_distinct_count :
    (∀ (e : TheoremEngine) (nid : String) (ci : Nat),
      ∃ col, (e.assignColor nid ci).currentColoring = some col ∧
        col.chromatic = (valuesA col.assignments).dedup.length) ∧
    (∀ (g : Graph) (o : AlgorithmOptions), o.constraints = [] → g.nodes.Nodup →
      (greedyCompute g o).chromatic
        = (valuesA (greedyCompute g o).assignments).dedup.length) ∧
    (∀ (g : Graph) (o : AlgorithmOptions), o.constraints = [] → g.nodes.Nodup →
      (welshPowellCompute g o).chromatic
        = (valuesA (welshPowellCompute g o).assignments).dedup.length) ∧
    (∀ (g : Graph) (o : AlgorithmOptions), o.constraints = [] → g.nodes.Nodup →
      (dsaturCompute g o).chromatic
        = (valuesA (dsaturCompute g o).assignments).dedup.length) := by
  refine ⟨?_, ?_, ?_, ?_⟩
  · intro e nid ci
    exact ⟨_, rfl, rfl⟩
  · intro g o hcon hnd
    have hc0 : applyConstraints g.nodes o.constraints
        (List.replicate g.nodes.length none) = List.replicate g.nodes.length none := by
      rw [hcon]
      rfl
    cases h : greedyGo g.adjacency (resolveMaxColors o.maxColors)
        (List.range g.nodes.length)
        (applyConstraints g.nodes o.constraints (List.replicate g.nodes.length none)) with
    | none =>
      have h1 : (greedyCompute g o).chromatic = 0 := by
        simp only [greedyCompute]
        rw [h]
      have h2 : (greedyCompute g o).assignments = [] := by
        simp only [greedyCompute]
        rw [h]
      rw [h1, h2]
      rfl
    | some colors' =>
      have h1 : (greedyCompute g o).chromatic = (maxColorUsed colors' + 1).toNat := by
        simp only [greedyCompute]
        rw [h]
      have h2 : (greedyCompute g o).assignments = assignmentsOf g.nodes colors' := by
        simp only [greedyCompute]
        rw [h]
      rw [h1, h2]
      rw [hc0] at h
      have hdc0 : DownClosed (usedVals (List.replicate g.nodes.length none)) := by
        rw [usedVals_replicate_none]
        exact downClosed_nil
      have hdc := greedyGo_downClosed _ _ _ _ _ hdc0 h
      have hlen := greedyGo_length _ _ _ _ _ h
      rw [List.length_replicate] at hlen
      exact chromatic_eq_distinct_of_run g colors' hnd hlen hdc
  · intro g o hcon hnd
    have hc0 : applyConstraints g.nodes o.constraints
        (List.replicate g.nodes.length none) = List.replicate g.nodes.length none := by
      rw [hcon]
      rfl
    cases h : greedyGo g.adjacency (resolveMaxColors o.maxColors)
        ((sortByDegreeDesc ((List.range g.nodes.length).map
          (fun i => (i, rowDegree g.adjacency i)))).map (·.1))
        (applyConstraints g.nodes o.constraints (List.replicate g.nodes.length none)) with
    | none =>
      have h1 : (welshPowellCompute g o).chromatic = 0 := by
        simp only [welshPowellCompute]
        rw [h]
      have h2 : (welshPowellCompute g o).assignments = [] := by
        simp only [welshPowellCompute]
        rw [h]
      rw [h1, h2]
      rfl
    | some colors' =>
      have h1 : (welshPowellCompute g o).chromatic
          = (maxColorUsed colors' + 1).toNat := by
        simp only [welshPowellCompute]
        rw [h]
      have h2 : (welshPowellCompute g o).assignments
          = assignmentsOf g.nodes colors' := by
        simp only [welshPowellCompute]
        rw [h]
      rw [h1, h2]
      rw [hc0] at h
      have hdc0 : DownClosed (usedVals (List.replicate g.nodes.length none)) := by
        rw [usedVals_replicate_none]
        exact downClosed_nil
      have hdc := greedyGo_downClosed _ _ _ _ _ hdc0 h
      have hlen := greedyGo_length _ _ _ _ _ h
      rw [List.length_replicate] at hlen
      exact chromatic_eq_distinct_of_run g colors' hnd hlen hdc
  · intro g o hcon hnd
    have hc0 : applyConstraints g.nodes o.constraints
        (List.replicate g.nodes.length none) = List.replicate g.nodes.length none := by
      rw [hcon]
      rfl
    cases h : dsaturLoop g.adjacency
        ((List.range g.nodes.length).map (fun i => rowDegree g.adjacency i))
        (resolveMaxColors o.maxColors) g.nodes.length
        (g.nodes.length -
          (o.constraints.filter (fun c => decide (c.colorIndex ≠ none))).length)
        (applyConstraints g.nodes o.constraints (List.replicate g.nodes.length none)) with
    | none =>
      have h1 : (dsaturCompute g o).chromatic = 0 := by
        simp only [dsaturCompute]
        rw [h]
      have h2 : (dsaturCompute g o).assignments = [] := by
        simp only [dsaturCompute]
        rw [h]
      rw [h1, h2]
      rfl
    | some colors' =>
      have h1 : (dsaturCompute g o).chromatic = (maxColorUsed colors' + 1).toNat := by
        simp only [dsaturCompute]
        rw [h]
      have h2 : (dsaturCompute g o).assignments = assignmentsOf g.nodes colors' := by
        simp only [dsaturCompute]
        rw [h]
      rw [h1, h2]
      rw [hc0] at h
      have hdc0 : DownClosed (usedVals (List.replicate g.nodes.length none)) := by
        rw [usedVals_replicate_none]
        exact downClosed_nil
      have hdc := dsaturLoop_downClosed _ _ _ _ _ _ _ hdc0 h
      have hlen := dsaturLoop_length _ _ _ _ _ _ _ h
      rw [List.length_replicate] at hlen
      exact chromatic_eq_distinct_of_run g colors' hnd hlen hdc

/-- witness for chromatic_distinct_count: the triangle run of Greedy uses 3
distinct colors and reports chromatic 3; a manual assignColor on a fresh
engine records one distinct color. -/
theorem chromatic_distinct_count_witness :
    (greedyCompute triangleGraph {}).chromatic
      = (valuesA (greedyCompute triangleGraph {}).assignments).dedup.length ∧
    ∃ col, ((TheoremEngine.make none).assignColor "A" 2).currentColoring = some col ∧
      col.chromatic = (valuesA col.assignments).dedup.length := by
  constructor
  · exact chromatic_distinct_count.2.1 triangleGraph {} rfl (by decide)
  · exact chromatic_distinct_count.1 (TheoremEngine.make none) "A" 2


/-! Greedy processing order and first-fit behavior (C5). -/

lemma getD_set_ne {l : List (Option Nat)} {i j : Nat} {a d : Option Nat}
    (h : i ≠ j) : (l.set i a).getD j d = l.getD j d := by
  rw [List.getD_eq_getElem?_getD, List.getElem?_set_ne h, ← List.getD_eq_getElem?_getD]

lemma getD_set_self {l : List (Option Nat)} {i : Nat} {a d : Option Nat}
    (h : i < l.length) : (l.set i a).getD i d = a := by
  rw [List.getD_eq_getElem?_getD, List.getElem?_set_self h, Option.getD_some]

lemma applyConstraints_length (nodes : List String) (constraints : List Constraint)
    (colors : List (Option Nat)) :
    (applyConstraints nodes constraints colors).length = colors.length := by
  induction constraints generalizing colors with
  | nil => rfl
  | cons con rest ih =>
    unfold applyConstraints at ih ⊢
    rw [List.foldl_cons]
    cases hf : findIndexId nodes con.nodeId with
    | none =>
      rw [ih]
    | some idx =>
      cases hc : con.colorIndex with
      | none =>
        rw [ih]
      | some c =>
        rw [ih, List.length_set]

lemma range_split {i n : Nat} (h : i < n) :
    List.range n = List.range i ++ i :: List.range' (i + 1) (n - i - 1) := by
  rw [List.range_eq_range' n, List.range_eq_range' i]
  have h1 := List.range'_append 0 i (n - i) 1
  simp only [Nat.mul_one, Nat.zero_add, one_mul] at h1
  rw [show n - i + i = n from by omega] at h1
  rw [← h1]
  congr 1
  have h2 := List.range'_succ i (n - i - 1) 1
  rw [show n - i = (n - i - 1) + 1 from by omega]
  simpa using h2

lemma greedyGo_cons_colored {adjacency : List (List Nat)} {maxColors : Nat}
    {i : Nat} {rest : List Nat} {colors : List (Option Nat)} {c : Nat}
    (hci : colors.getD i none = some c) :
    greedyGo adjacency maxColors (i :: rest) colors
      = greedyGo adjacency maxColors rest colors := by
  conv_lhs => unfold greedyGo
  rw [hci]

lemma greedyGo_cons_uncolored_some {adjacency : List (List Nat)} {maxColors : Nat}
    {i : Nat} {rest : List Nat} {colors : List (Option Nat)} {c : Nat}
    (hci : colors.getD i none = none)
    (hhd : (availableColors adjacency i colors maxColors).head? = some c) :
    greedyGo adjacency maxColors (i :: rest) colors
      = greedyGo adjacency maxColors rest (colors.set i (some c)) := by
  conv_lhs => unfold greedyGo
  rw [hci, hhd]

lemma greedyGo_cons_uncolored_none {adjacency : List (List Nat)} {maxColors : Nat}
    {i : Nat} {rest : List Nat} {colors : List (Option Nat)}
    (hci : colors.getD i none = none)
    (hhd : (availableColors adjacency i colors maxColors).head? = none) :
    greedyGo adjacency maxColors (i :: rest) colors = none := by
  conv_lhs => unfold greedyGo
  rw [hci, hhd]

lemma greedyGo_append (adjacency : List (List Nat)) (maxColors : Nat) :
    ∀ (l1 l2 : List Nat) (colors : List (Option Nat)),
      greedyGo adjacency maxColors (l1 ++ l2) colors
        = (greedyGo adjacency maxColors l1 colors).bind
            (greedyGo adjacency maxColors l2) := by
  intro l1
  induction l1 with
  | nil =>
    intro l2 colors
    rfl
  | cons i rest ih =>
    intro l2 colors
    rw [List.cons_append]
    cases hci : colors.getD i none with
    | some c =>
      rw [greedyGo_cons_colored hci, greedyGo_cons_colored hci, ih l2 colors]
    | none =>
      cases hhd : (availableColors adjacency i colors maxColors).head? with
      | none =>
        rw [greedyGo_cons_uncolored_none hci hhd,
          greedyGo_cons_uncolored_none hci hhd]
        rfl
      | some c =>
        rw [greedyGo_cons_uncolored_some hci hhd,
          greedyGo_cons_uncolored_some hci hhd, ih l2 (colors.set i (some c))]

lemma greedyGo_stable (adjacency : List (List Nat)) (maxColors : Nat) :
    ∀ (ord : List Nat) (colors colors' : List (Option Nat)),
      greedyGo adjacency maxColors ord colors = some colors' →
      ∀ j c, colors.getD j none = some c → colors'.getD j none = some c := by
  intro ord
  induction ord with
  | nil =>
    intro colors colors' h j c hj
    cases h
    exact hj
  | cons i rest ih =>
    intro colors colors' h j c hj
    unfold greedyGo at h
    cases hci : colors.getD i none with
    | some c0 =>
      rw [hci] at h
      exact ih colors colors' h j c hj
    | none =>
      rw [hci] at h
      cases hhd : (availableColors adjacency i colors maxColors).head? with
      | none =>
        rw [hhd] at h
        cases h
      | some c0 =>
        rw [hhd] at h
        have hij : i ≠ j := by
          intro he
          rw [he, hj] at hci
          exact Option.noConfusion hci
        exact ih _ colors' h j c (by rw [getD_set_ne hij]; exact hj)

lemma greedyGo_untouched (adjacency : List (List Nat)) (maxColors : Nat) :
    ∀ (ord : List Nat) (colors colors' : List (Option Nat)),
      greedyGo adjacency maxColors ord colors = some colors' →
      ∀ j, j ∉ ord → colors'.getD j none = colors.getD j none := by
  intro ord
  induction ord with
  | nil =>
    intro colors colors' h j _
    cases h
    rfl
  | cons i rest ih =>
    intro colors colors' h j hj
    have hji : j ≠ i := fun he => hj (he ▸ List.mem_cons_self i rest)
    have hjr : j ∉ rest := fun hr => hj (List.mem_cons_of_mem i hr)
    unfold greedyGo at h
    cases hci : colors.getD i none with
    | some c0 =>
      rw [hci] at h
      exact ih colors colors' h j hjr
    | none =>
      rw [hci] at h
      cases hhd : (availableColors adjacency i colors maxColors).head? with
      | none =>
        rw [hhd] at h
        cases h
      | some c0 =>
        rw [hhd] at h
        rw [ih _ colors' h j hjr, getD_set_ne (fun he => hji he.symm)]

lemma greedyGo_none_elim (adjacency : List (List Nat)) (maxColors : Nat) :
    ∀ (ord : List Nat) (colors : List (Option Nat)),
      greedyGo adjacency maxColors ord colors = none →
      ∃ pre v post, ord = pre ++ v :: post ∧
        ∃ mid, greedyGo adjacency maxColors pre colors = some mid ∧
          mid.getD v none = none ∧ availableColors adjacency v mid maxColors = [] := by
  intro ord
  induction ord with
  | nil =>
    intro colors h
    exact absurd h (by unfold greedyGo; simp)
  | cons i rest ih =>
    intro colors h
    unfold greedyGo at h
    cases hci : colors.getD i none with
    | some c0 =>
      rw [hci] at h
      obtain ⟨pre, v, post, heq, mid, hmid, hunc, hav⟩ := ih colors h
      refine ⟨i :: pre, v, post, by rw [heq, List.cons_append], mid, ?_, hunc, hav⟩
      unfold greedyGo
      rw [hci]
      exact hmid
    | none =>
      rw [hci] at h
      cases hhd : (availableColors adjacency i colors maxColors).head? with
      | none =>
        refine ⟨[], i, rest, rfl, colors, rfl, hci, ?_⟩
        exact List.head?_eq_none_iff.1 hhd
      | some c0 =>
        rw [hhd] at h
        obtain ⟨pre, v, post, heq, mid, hmid, hunc, hav⟩ := ih _ h
        refine ⟨i :: pre, v, post, by rw [heq, List.cons_append], mid, ?_, hunc, hav⟩
        unfold greedyGo
        rw [hci, hhd]
        exact hmid

lemma range_decomp {n : Nat} {pre post : List Nat} {v : Nat}
    (h : List.range n = pre ++ v :: post) : pre = List.range v ∧ v < n := by
  have hlen : pre.length + (v :: post).length = n := by
    have := congrArg List.length h
    simpa using this.symm
  have hvn : pre.length < n := by
    simp at hlen
    omega
  have h1 : (List.range n)[pre.length]? = some pre.length := by
    simp [hvn]
  rw [h, List.getElem?_append, if_neg (lt_irrefl _), Nat.sub_self] at h1
  have hv : v = pre.length := by
    simpa using h1
  subst hv
  refine ⟨?_, hvn⟩
  have h2 : (List.range n).take pre.length = pre := by
    rw [h]
    exact List.take_left pre _
  rw [List.take_range, Nat.min_eq_left (Nat.le_of_lt hvn)] at h2
  exact h2.symm

/-- C5: Greedy processes positions in input order, each constraint-free
position receiving the head of its available-color list — the smallest color
index below maxColors not used by an already-colored neighbor at that step —
and it fails as data, not by raising: the result is invalid exactly when some
position is reached uncolored with no available color, and an invalid result
carries an empty mapping and chromatic 0. -/
theorem greedy_input_order_first_fit (g : Graph) (o : AlgorithmOptions) :
    ((greedyCompute g o).valid = false →
      (greedyCompute g o).assignments = [] ∧ (greedyCompute g o).chromatic = 0) ∧
    ((greedyCompute g o).valid = false ↔
      ∃ i, i < g.nodes.length ∧ ∃ mid,
        greedyGo g.adjacency (resolveMaxColors o.maxColors) (List.range i)
          (applyConstraints g.nodes o.constraints
            (List.replicate g.nodes.length none)) = some mid ∧
        mid.getD i none = none ∧
        availableColors g.adjacency i mid (resolveMaxColors o.maxColors) = []) ∧
    (∀ colors', greedyGo g.adjacency (resolveMaxColors o.maxColors)
        (List.range g.nodes.length)
        (applyConstraints g.nodes o.constraints
          (List.replicate g.nodes.length none)) = some colors' →
      (greedyCompute g o).assignments = assignmentsOf g.nodes colors' ∧
      ∀ i, i < g.nodes.length →
        (applyConstraints g.nodes o.constraints
          (List.replicate g.nodes.length none)).getD i none = none →
        ∃ mid c,
          greedyGo g.adjacency (resolveMaxColors o.maxColors) (List.range i)
            (applyConstraints g.nodes o.constraints
              (List.replicate g.nodes.length none)) = some mid ∧
          (availableColors g.adjacency i mid
            (resolveMaxColors o.maxColors)).head? = some c ∧
          colors'.getD i none = some c ∧
          c < resolveMaxColors o.maxColors ∧
          c ∉ usedNeighborColors g.adjacency i mid ∧
          (∀ b, b < c → b ∈ usedNeighborColors g.adjacency i mid)) := by
  refine ⟨?_, ?_, ?_⟩
  · intro hv
    cases h : greedyGo g.adjacency (resolveMaxColors o.maxColors)
        (List.range g.nodes.length)
        (applyConstraints g.nodes o.constraints
          (List.replicate g.nodes.length none)) with
    | some colors' =>
      have hval : (greedyCompute g o).valid = true := by
        simp only [greedyCompute]
        rw [h]
      rw [hval] at hv
      exact Bool.noConfusion hv
    | none =>
      constructor
      · simp only [greedyCompute]
        rw [h]
      · simp only [greedyCompute]
        rw [h]
  · constructor
    · intro hv
      cases h : greedyGo g.adjacency (resolveMaxColors o.maxColors)
          (List.range g.nodes.length)
          (applyConstraints g.nodes o.constraints
            (List.replicate g.nodes.length none)) with
      | some colors' =>
        have hval : (greedyCompute g o).valid = true := by
          simp only [greedyCompute]
          rw [h]
        rw [hval] at hv
        exact Bool.noConfusion hv
      | none =>
        obtain ⟨pre, v, post, heq, mid, hmid, hunc, hav⟩ :=
          greedyGo_none_elim _ _ _ _ h
        obtain ⟨hpre, hvn⟩ := range_decomp heq
        exact ⟨v, hvn, mid, by rw [← hpre]; exact hmid, hunc, hav⟩
    · rintro ⟨i, hin, mid, hmid, hunc, hav⟩
      have hrun : greedyGo g.adjacency (resolveMaxColors o.maxColors)
          (List.range g.nodes.length)
          (applyConstraints g.nodes o.constraints
            (List.replicate g.nodes.length none)) = none := by
        rw [range_split hin, greedyGo_append, hmid, Option.some_bind]
        exact greedyGo_cons_uncolored_none hunc (by rw [hav]; rfl)
      simp only [greedyCompute]
      rw [hrun]
  · intro colors' h
    constructor
    · simp only [greedyCompute]
      rw [h]
    · intro i hin hfree
      rw [range_split hin, greedyGo_append] at h
      cases hmid : greedyGo g.adjacency (resolveMaxColors o.maxColors)
          (List.range i)
          (applyConstraints g.nodes o.constraints
            (List.replicate g.nodes.length none)) with
      | none =>
        rw [hmid] at h
        exact absurd h (by simp)
      | some mid =>
        rw [hmid, Option.some_bind] at h
        have hmidunc : mid.getD i none = none := by
          rw [greedyGo_untouched _ _ _ _ _ hmid i (by simp)]
          exact hfree
        cases hhd : (availableColors g.adjacency i mid
            (resolveMaxColors o.maxColors)).head? with
        | none =>
          rw [greedyGo_cons_uncolored_none hmidunc hhd] at h
          exact absurd h (by simp)
        | some c =>
          rw [greedyGo_cons_uncolored_some hmidunc hhd] at h
          have hset : (mid.set i (some c)).getD i none = some c := by
            apply getD_set_self
            have hl := greedyGo_length _ _ _ _ _ hmid
            rw [applyConstraints_length, List.length_replicate] at hl
            omega
          have hfinal : colors'.getD i none = some c :=
            greedyGo_stable _ _ _ _ _ h i c hset
          obtain ⟨hc1, hc2, hc3⟩ := availableColors_head hhd
          exact ⟨mid, c, rfl, hhd, hfinal, hc1, hc2, hc3⟩

/-- witness for greedy_input_order_first_fit: on the triangle, position 2 is
constraint-free and receives color 2, the smallest color unused by its two
already-colored neighbors. -/
theorem greedy_input_order_first_fit_witness :
    ∃ mid c,
      greedyGo triangleGraph.adjacency 4 (List.range 2)
        (applyConstraints triangleGraph.nodes []
          (List.replicate triangleGraph.nodes.length none)) = some mid ∧
      (availableColors triangleGraph.adjacency 2 mid 4).head? = some c ∧
      c < 4 := by
  have h := (greedy_input_order_first_fit triangleGraph {}).2.2
  have h2 := (h [some 0, some 1, some 2] (by decide)).2 2 (by decide) (by decide)
  obtain ⟨mid, c, hmid, hhd, _, hc1, _, _⟩ := h2
  exact ⟨mid, c, hmid, hhd, hc1⟩

/-! Engine history invariant and the assignColor/undo round trip (C7). -/

/-- invariant of reachable engine states: the cursor is in range whenever the
stack is nonempty and then points at a snapshot equal in value to the current
coloring; the stack never exceeds capacity. -/
def EngineInv (e : TheoremEngine) : Prop :=
  (e.stateManager.stack = [] → e.stateManager.index = -1) ∧
  (e.stateManager.stack ≠ [] →
    0 ≤ e.stateManager.index ∧
    e.stateManager.index < (e.stateManager.stack.length : Int) ∧
    ∃ s, e.stateManager.stack.get? e.stateManager.index.toNat = some s ∧
      e.currentColoring = some s.coloring) ∧
  e.stateManager.stack.length ≤ e.stateManager.maxSteps

lemma get?_concat_last (l : List StateSnapshot) (s : StateSnapshot) :
    (l ++ [s]).get? ((l ++ [s]).length - 1) = some s := by
  rw [List.get?_eq_getElem?, List.length_append, List.length_singleton,
    Nat.add_sub_cancel]
  exact List.getElem?_concat_length l s

lemma push_inv (hm : HistoryManager) (s : StateSnapshot)
    (hlen : hm.stack.length ≤ hm.maxSteps) :
    (hm.push s).maxSteps = hm.maxSteps ∧
    (hm.push s).stack.length ≤ hm.maxSteps ∧
    ((hm.push s).stack = [] → (hm.push s).index = -1) ∧
    ((hm.push s).stack ≠ [] →
      0 ≤ (hm.push s).index ∧
      (hm.push s).index < ((hm.push s).stack.length : Int) ∧
      (hm.push s).stack.get? (hm.push s).index.toNat = some s) := by
  have hfl : (hm.stack.take (hm.index + 1).toNat).length ≤ hm.stack.length := by
    rw [List.length_take]
    omega
  by_cases hova : (hm.stack.take (hm.index + 1).toNat ++ [s]).length > hm.maxSteps
  · have hpush : hm.push s =
        ⟨hm.maxSteps, (hm.stack.take (hm.index + 1).toNat ++ [s]).tail,
          (((hm.stack.take (hm.index + 1).toNat ++ [s]).tail.length : Int)) - 1⟩ := by
      unfold HistoryManager.push
      dsimp only
      rw [if_pos hova]
    rw [hpush]
    dsimp only
    rw [List.length_append] at hova
    simp only [List.length_singleton] at hova
    refine ⟨rfl, ?_, ?_, ?_⟩
    · rw [List.length_tail, List.length_append]
      simp
      omega
    · intro hnil
      rw [hnil]
      decide
    · intro hnil
      cases hf : hm.stack.take (hm.index + 1).toNat with
      | nil =>
        exfalso
        apply hnil
        rw [hf]
        rfl
      | cons f0 fr =>
        simp only [List.cons_append, List.tail_cons]
        have h1 : (0 : Int) ≤ ((fr ++ [s]).length : Int) - 1 := by
          simp
        refine ⟨h1, by omega, ?_⟩
        have h2 : (((fr ++ [s]).length : Int) - 1).toNat = (fr ++ [s]).length - 1 := by
          omega
        rw [h2]
        exact get?_concat_last fr s
  · have hpush : hm.push s =
        ⟨hm.maxSteps, hm.stack.take (hm.index + 1).toNat ++ [s],
          (((hm.stack.take (hm.index + 1).toNat ++ [s]).length : Int)) - 1⟩ := by
      unfold HistoryManager.push
      dsimp only
      rw [if_neg hova]
    rw [hpush]
    dsimp only
    rw [List.length_append] at hova
    simp only [List.length_singleton] at hova
    refine ⟨rfl, ?_, ?_, ?_⟩
    · rw [List.length_append]
      simp at hova ⊢
      omega
    · intro hnil
      exact absurd hnil (by simp)
    · intro _
      have h1 : (0 : Int)
          ≤ ((hm.stack.take (hm.index + 1).toNat ++ [s]).length : Int) - 1 := by
        simp
      refine ⟨h1, by omega, ?_⟩
      have h2 : ((((hm.stack.take (hm.index + 1).toNat ++ [s]).length : Int)) - 1).toNat
          = (hm.stack.take (hm.index + 1).toNat ++ [s]).length - 1 := by
        omega
      rw [h2]
      exact get?_concat_last _ s

lemma engineInv_after_push (e : TheoremEngine) (col : ColorAssignment) (act : String)
    (hlen : e.stateManager.stack.length ≤ e.stateManager.maxSteps) :
    EngineInv { e with
        currentColoring := some col,
        stateManager := e.stateManager.push ⟨col, act⟩ } := by
  obtain ⟨hms, hlen', hemp, hne⟩ := push_inv e.stateManager ⟨col, act⟩ hlen
  refine ⟨hemp, ?_, by rw [hms]; exact hlen'⟩
  intro hnil
  obtain ⟨h1, h2, h3⟩ := hne hnil
  exact ⟨h1, h2, ⟨col, act⟩, h3, rfl⟩

lemma reachable_inv : ∀ {e : TheoremEngine}, Reachable e → EngineInv e := by
  intro e h
  induction h with
  | init opts =>
    exact ⟨fun _ => rfl, fun h => absurd rfl h, Nat.zero_le _⟩
  | load g _ ih =>
    exact ⟨fun _ => rfl, fun h => absurd rfl h, Nat.zero_le _⟩
  | compute hre heq ih =>
    rename_i e0 e' c o
    unfold TheoremEngine.computeColoring at heq
    cases hg : e0.currentGraph with
    | none =>
      rw [hg] at heq
      exact absurd heq (by simp)
    | some g =>
      rw [hg] at heq
      have hpair := Except.ok.inj heq
      have he' := congrArg Prod.fst hpair
      simp only at he'
      rw [← he', ← hg]
      exact engineInv_after_push e0 _ _ ih.2.2
  | assign nid ci hre ih =>
    rename_i e0
    unfold TheoremEngine.assignColor
    dsimp only
    exact engineInv_after_push e0 _ _ ih.2.2
  | reset hre ih =>
    rename_i e0
    unfold TheoremEngine.reset
    dsimp only
    exact engineInv_after_push { e0 with stateManager := e0.stateManager.clear } _ _
      (Nat.zero_le _)
  | undo hre ih =>
    rename_i e0
    by_cases hle : e0.stateManager.index ≤ 0
    · have heq : e0.undo.1 = { e0 with stateManager := e0.stateManager } := by
        unfold TheoremEngine.undo HistoryManager.stepBack
        rw [if_pos hle]
      rw [heq]
      exact ih
    · obtain ⟨hA, hB, hC⟩ := ih
      have hnil : e0.stateManager.stack ≠ [] := by
        intro h0
        rw [hA h0] at hle
        exact hle (by decide)
      obtain ⟨hge, hlt, s, hget, hcur⟩ := hB hnil
      have hlt' : (e0.stateManager.index - 1).toNat < e0.stateManager.stack.length := by
        omega
      obtain ⟨s', hs'⟩ : ∃ s', e0.stateManager.stack.get?
          (e0.stateManager.index - 1).toNat = some s' := by
        rw [List.get?_eq_getElem?]
        exact ⟨_, List.getElem?_eq_getElem hlt'⟩
      have heq : e0.undo.1 = { e0 with
          stateManager := { e0.stateManager with index := e0.stateManager.index - 1 },
          currentColoring := some s'.coloring } := by
        unfold TheoremEngine.undo HistoryManager.stepBack
        rw [if_neg hle]
        dsimp only
        rw [hs']
      rw [heq]
      refine ⟨fun h0 => absurd h0 hnil, ?_, hC⟩
      intro _
      dsimp only
      exact ⟨by omega, by omega, s', hs', rfl⟩
  | redo hre ih =>
    rename_i e0
    by_cases hle : e0.stateManager.index ≥ (e0.stateManager.stack.length : Int) - 1
    · have heq : e0.redo.1 = { e0 with stateManager := e0.stateManager } := by
        unfold TheoremEngine.redo HistoryManager.stepForward
        rw [if_pos hle]
      rw [heq]
      exact ih
    · obtain ⟨hA, hB, hC⟩ := ih
      have hnil : e0.stateManager.stack ≠ [] := by
        intro h0
        rw [h0] at hle
        rw [hA h0] at hle
        exact hle (by decide)
      obtain ⟨hge, hlt, s, hget, hcur⟩ := hB hnil
      have hlt' : (e0.stateManager.index + 1).toNat < e0.stateManager.stack.length := by
        omega
      obtain ⟨s', hs'⟩ : ∃ s', e0.stateManager.stack.get?
          (e0.stateManager.index + 1).toNat = some s' := by
        rw [List.get?_eq_getElem?]
        exact ⟨_, List.getElem?_eq_getElem hlt'⟩
      have heq : e0.redo.1 = { e0 with
          stateManager := { e0.stateManager with index := e0.stateManager.index + 1 },
          currentColoring := some s'.coloring } := by
        unfold TheoremEngine.redo HistoryManager.stepForward
        rw [if_neg hle]
        dsimp only
        rw [hs']
      rw [heq]
      refine ⟨fun h0 => absurd h0 hnil, ?_, hC⟩
      intro _
      dsimp only
      exact ⟨by omega, by omega, s', hs', rfl⟩

lemma stepBack_push (hm : HistoryManager) (snap s : StateSnapshot)
    (hge : 0 ≤ hm.index) (hlt : hm.index < (hm.stack.length : Int))
    (hlen : hm.stack.length ≤ hm.maxSteps) (hcap : 2 ≤ hm.maxSteps)
    (hget : hm.stack.get? hm.index.toNat = some s) :
    ((hm.push snap).stepBack).2 = some s := by
  have ht : (hm.index + 1).toNat = hm.index.toNat + 1 := by omega
  have htle : hm.index.toNat + 1 ≤ hm.stack.length := by omega
  have hfl : (hm.stack.take (hm.index + 1).toNat).length = hm.index.toNat + 1 := by
    rw [List.length_take]
    omega
  have hlen2 : (hm.stack.take (hm.index + 1).toNat ++ [snap]).length
      = hm.index.toNat + 2 := by
    rw [List.length_append, hfl]
    rfl
  by_cases hova : (hm.stack.take (hm.index + 1).toNat ++ [snap]).length > hm.maxSteps
  · have hova2 : hm.index.toNat + 2 > hm.maxSteps := by rw [hlen2] at hova; exact hova
    have hteq : hm.index.toNat + 1 = hm.maxSteps := by omega
    have hsl : hm.stack.length = hm.maxSteps := by omega
    have hfront : hm.stack.take (hm.index + 1).toNat = hm.stack := by
      rw [ht]
      have h0 : hm.index.toNat + 1 = hm.stack.length := by omega
      rw [h0]
      exact List.take_length hm.stack
    have hpush : hm.push snap = ⟨hm.maxSteps, (hm.stack ++ [snap]).tail,
        (((hm.stack ++ [snap]).tail.length : Int)) - 1⟩ := by
      unfold HistoryManager.push
      dsimp only
      rw [if_pos hova, hfront]
    rw [hpush]
    cases hst : hm.stack with
    | nil =>
      exfalso
      rw [hst] at hsl
      simp at hsl
      omega
    | cons s0 rest =>
      have hsl' : rest.length + 1 = hm.maxSteps := by
        rw [hst] at hsl
        simpa using hsl
      simp only [List.cons_append, List.tail_cons]
      unfold HistoryManager.stepBack
      dsimp only
      have hcond : ¬ ((((rest ++ [snap]).length : Int) - 1) ≤ 0) := by
        rw [List.length_append, List.length_singleton]
        omega
      rw [if_neg hcond]
      dsimp only
      have hidx : ((((rest ++ [snap]).length : Int) - 1) - 1).toNat = rest.length - 1 := by
        rw [List.length_append, List.length_singleton]
        omega
      rw [hidx]
      obtain ⟨k, hk⟩ : ∃ k, rest.length = k + 1 := ⟨rest.length - 1, by omega⟩
      rw [hk]
      simp only [Nat.add_sub_cancel]
      rw [List.get?_eq_getElem?, List.getElem?_append, if_pos (by omega : k < rest.length)]
      have hidx2 : hm.index.toNat = k + 1 := by omega
      rw [hst, hidx2, List.get?_eq_getElem?] at hget
      simp only [List.getElem?_cons_succ] at hget
      exact hget
  · have hpush : hm.push snap = ⟨hm.maxSteps, hm.stack.take (hm.index + 1).toNat ++ [snap],
        (((hm.stack.take (hm.index + 1).toNat ++ [snap]).length : Int)) - 1⟩ := by
      unfold HistoryManager.push
      dsimp only
      rw [if_neg hova]
    rw [hpush]
    unfold HistoryManager.stepBack
    dsimp only
    have hcond : ¬ ((((hm.stack.take (hm.index + 1).toNat ++ [snap]).length : Int) - 1) ≤ 0) := by
      rw [hlen2]
      omega
    rw [if_neg hcond]
    dsimp only
    have hidx : ((((hm.stack.take (hm.index + 1).toNat ++ [snap]).length : Int) - 1) - 1).toNat
        = hm.index.toNat := by
      rw [hlen2]
      omega
    rw [hidx]
    rw [List.get?_eq_getElem?, List.getElem?_append,
      if_pos (by rw [hfl]; omega : hm.index.toNat < (hm.stack.take (hm.index + 1).toNat).length)]
    rw [List.getElem?_take, if_pos (by omega : hm.index.toNat < (hm.index + 1).toNat)]
    rw [← List.get?_eq_getElem?]
    exact hget

/-- C7 (amended): for every reachable engine state whose history stack is
nonempty and whose undo capacity is at least 2, assignColor followed by undo
restores the ColorAssignment that was current before the assignColor call —
both in the engine state and in undo's returned value.  (The unamended claim
fails immediately after loadGraph: see the counterexample.) -/
theorem assign_undo_roundtrip (e : TheoremEngine) (he : Reachable e)
    (hne : e.stateManager.stack ≠ []) (hcap : 2 ≤ e.stateManager.maxSteps)
    (nid : String) (ci : Nat) :
    ((e.assignColor nid ci).undo).1.currentColoring = e.currentColoring ∧
    ((e.assignColor nid ci).undo).2 = e.currentColoring := by
  obtain ⟨hA, hB, hC⟩ := reachable_inv he
  obtain ⟨hge, hlt, s, hget, hcur⟩ := hB hne
  have hsb : ((e.assignColor nid ci).stateManager).stepBack.2 = some s :=
    stepBack_push e.stateManager _ s hge hlt hC hcap hget
  have hpair : ((e.assignColor nid ci).stateManager).stepBack
      = (((e.assignColor nid ci).stateManager).stepBack.1, some s) := by
    rw [← hsb]
  constructor
  · unfold TheoremEngine.undo
    rw [hpair]
    exact hcur.symm
  · unfold TheoremEngine.undo
    rw [hpair]
    exact hcur.symm

/-- reachable engine used by the C7 witness: loadGraph then reset, leaving a
one-snapshot history under the default capacity of 20. -/
def witnessEngine : TheoremEngine := freshLoadedEngine.reset

theorem assign_undo_roundtrip_witness :
    witnessEngine.stateManager.stack ≠ [] ∧
    2 ≤ witnessEngine.stateManager.maxSteps ∧
    ((witnessEngine.assignColor "A" 1).undo).1.currentColoring
      = witnessEngine.currentColoring ∧
    ((witnessEngine.assignColor "A" 1).undo).2 = witnessEngine.currentColoring := by
  have hne : witnessEngine.stateManager.stack ≠ [] := by
    intro h
    exact absurd (congrArg List.length h) (by decide)
  have h := assign_undo_roundtrip witnessEngine
    (Reachable.reset (Reachable.load _ (Reachable.init none)))
    hne (by decide) "A" 1
  exact ⟨hne, by decide, h.1, h.2⟩

end FourColor
